import Mathlib

/-!
# Verification of the AI Artistry reasoning engine (`src/reasoning-engine.js`)

This file is a shallow embedding, in Lean 4, of the pure computational core of
the reasoning engine: JSON response extraction (`parseResponse`), architecture
validation (`validateArchitecture`), confidence gating (the pure portion of
`processWithConfidenceGating`), metadata stamping in `generateArchitecture`
and `refineArchitecture`, and user-prompt assembly (`buildUserPrompt`,
`formatStructuredInput`).  The network call (`callClaudeAPI`) is elided: the
completion text it would return is taken as an input parameter, and the
wall-clock timestamps produced by `new Date().toISOString()` are likewise
taken as parameters.

JavaScript values flowing through the engine are JSON documents, modelled by
the inductive type `Json` below.  JSON numbers are modelled exactly as decimal
literals, by an integer mantissa together with a count of fraction digits
(so `1.50` is `num 150 2`); this represents every decimal literal exactly and
avoids floating-point rounding, which none of the verified properties exercise.
JavaScript runtime errors are modelled explicitly: the engine source is an ES
module and therefore runs in strict mode, so property creation on a primitive
throws `TypeError`, as does property access on `null`/`undefined` and calling
an array method on a non-array.  `undefined` is modelled as `Option.none` at
property-read boundaries.

Documented simplifications of host-language built-ins (none of which is
exercised by any theorem below):
* `JSON.parse` is modelled without exponent notation (`1e5`) and without
  surrogate-pair `\u` escapes; unescaped control characters inside string
  literals are accepted.
* `JSON.stringify` escapes only `"` and `\` inside strings and emits no
  whitespace, matching the compact form used by the engine.
* Strings are sequences of Unicode scalar values; JavaScript UTF-16 code-unit
  counting (`substring`, `length`) coincides with it on all inputs appearing
  here.
* Number coercion in `>=` / `<` comparisons is exact on numbers, booleans,
  `null` and `undefined`; arrays are coerced to NaN (JavaScript would coerce
  via their string form), and objects to NaN (faithful).
* A property assigned to an array value is dropped: such properties are not
  representable at the JSON-document level and are discarded by
  `JSON.stringify`.
-/

namespace AIArtistry

/-- JSON document values, the data flowing through the engine.  Numbers carry
their decimal-literal representation: `num m e` denotes `m / 10 ^ e`. -/
inductive Json where
  | null : Json
  | bool (b : Bool) : Json
  | num (m : Int) (e : Nat) : Json
  | str (s : String) : Json
  | arr (elems : List Json) : Json
  | obj (fields : List (String × Json)) : Json

/-- Whether a JSON value is the literal `null`. -/
def isNull : Json → Bool
  | .null => true
  | _ => false

/-- Numeric value denoted by a `Json.num`. -/
def numVal (m : Int) (e : Nat) : ℚ := (m : ℚ) / 10 ^ e

/-- JavaScript truthiness of a JSON value. -/
def truthy : Json → Bool
  | .null => false
  | .bool b => b
  | .num m _ => m ≠ 0
  | .str s => s ≠ ""
  | .arr _ => true
  | .obj _ => true

/-- Truthiness of a possibly-`undefined` value (`undefined` is falsy). -/
def truthyO : Option Json → Bool
  | none => false
  | some v => truthy v

/-- Property lookup in an object field list.  JavaScript objects have unique
keys; for a list with duplicate keys the last occurrence wins, matching the
value `JSON.parse` would have produced. -/
def objGet : List (String × Json) → String → Option Json
  | [], _ => none
  | p :: fs, k =>
      match objGet fs k with
      | some r => some r
      | none => if p.1 == k then some p.2 else none

/-- Update of every binding of a key already known to be present. -/
def objReplace : List (String × Json) → String → Json → List (String × Json)
  | [], _, _ => []
  | p :: fs, k, v => (if p.1 == k then (p.1, v) else p) :: objReplace fs k v

/-- Property assignment in an object field list: an existing key is updated in
place (JavaScript keeps its insertion position), a new key is appended. -/
def objSet : List (String × Json) → String → Json → List (String × Json)
  | [], k, v => [(k, v)]
  | p :: fs, k, v =>
      if p.1 == k then (p.1, v) :: objReplace fs k v
      else p :: objSet fs k v

/-- Runtime failures of the engine.  `parseError` models the thrown
`Failed to parse architecture response as JSON` failure together with the
`console.error` excerpt of the cleaned text that accompanies it;
`schemaError` models a thrown `Error` with the given message;
`typeError` models a JavaScript `TypeError` (strict-mode property creation on
a primitive, property access on `null`/`undefined`, array method on a
non-array). -/
inductive EngineError where
  | parseError (cleanedSnippet : String) : EngineError
  | schemaError (msg : String) : EngineError
  | typeError : EngineError
deriving DecidableEq, Repr

/-- `v[k]`: property read.  Reading a property of `null` throws `TypeError`;
reading a named property of any other non-object yields `undefined`. -/
def jsProp : Json → String → Except EngineError (Option Json)
  | .null, _ => .error .typeError
  | .obj fs, k => .ok (objGet fs k)
  | _, _ => .ok none

/-- `v[k] = x`: property write.  In strict mode (the engine is an ES module)
assigning a property to a primitive or `null` throws `TypeError`.  A property
assigned to an array is dropped (see the simplification note above). -/
def jsSet : Json → String → Json → Except EngineError Json
  | .obj fs, k, v => .ok (.obj (objSet fs k v))
  | .arr xs, _, _ => .ok (.arr xs)
  | _, _, _ => .error .typeError

/-- `x || dflt` on a possibly-`undefined` value. -/
def jsOr (o : Option Json) (dflt : Json) : Json :=
  match o with
  | some v => if truthy v then v else dflt
  | none => dflt

/-! ## `validateArchitecture` (src/reasoning-engine.js lines 439-467) -/

/-- The required top-level fields, in source order. -/
def requiredFields : List String := ["metadata", "project", "global_style", "shots"]

/-- The pure value of `required.filter(field => !arch[field])` for an object
architecture. -/
def missingOf (fs : List (String × Json)) : List String :=
  requiredFields.filter (fun f => !truthyO (objGet fs f))

/-- The per-shot loop of `validateArchitecture` (`arch.shots.forEach`): throws
on the first shot whose `prompt` or `prompt.full_prompt` is absent or falsy.
`i` is the zero-based index of the first shot of the list. -/
def checkShots : Nat → List Json → Except EngineError Unit
  | _, [] => .ok ()
  | i, s :: rest => do
      let pO ← jsProp s "prompt"
      match pO with
      | some pv =>
          if truthy pv then do
            let fpO ← jsProp pv "full_prompt"
            if truthyO fpO then checkShots (i + 1) rest
            else .error (.schemaError ("Shot " ++ toString (i + 1) ++ " missing full_prompt"))
          else .error (.schemaError ("Shot " ++ toString (i + 1) ++ " missing full_prompt"))
      | none => .error (.schemaError ("Shot " ++ toString (i + 1) ++ " missing full_prompt"))

/-- `required.filter(field => !arch[field])`, with the property reads
throwing exactly where JavaScript would. -/
def collectMissing : List String → Json → Except EngineError (List String)
  | [], _ => .ok []
  | f :: rest, arch => do
      let o ← jsProp arch f
      let tail ← collectMissing rest arch
      pure (if !truthyO o then f :: tail else tail)

/-- The defaulting stage of `validateArchitecture` (lines 455-464).  The
JavaScript code mutates `arch` in place; since `JSON.parse` output is
tree-shaped, in-place mutation through the `metadata` reference is modelled by
the corresponding functional update. -/
def applyDefaults (arch : Json) : Except EngineError Json := do
  let mdO ← jsProp arch "metadata"
  let md := mdO.getD .null
  let csO ← jsProp md "confidence_score"
  let md1 ← match csO with
    | some (.num _ _) => pure md
    | _ => jsSet md "confidence_score" (.num 8 1)
  let arch1 ← jsSet arch "metadata" md1
  let i0 ← jsProp arch1 "interpretations"
  let arch2 ← jsSet arch1 "interpretations" (jsOr i0 (.arr []))
  let m0 ← jsProp arch2 "missing_info"
  let arch3 ← jsSet arch2 "missing_info" (jsOr m0 (.arr []))
  let c0 ← jsProp arch3 "characters"
  let arch4 ← jsSet arch3 "characters" (jsOr c0 (.arr []))
  let e0 ← jsProp arch4 "environments"
  let arch5 ← jsSet arch4 "environments" (jsOr e0 (.arr []))
  pure arch5

/-- `validateArchitecture(arch)`: required-field presence, per-shot
`full_prompt` presence, then defaulting of `confidence_score` and the four
optional collections. -/
def validateArchitecture (arch : Json) : Except EngineError Json := do
  let missing ← collectMissing requiredFields arch
  if missing ≠ [] then
    .error (.schemaError ("Architecture missing required fields: " ++ String.intercalate ", " missing))
  else do
    let shotsO ← jsProp arch "shots"
    match shotsO with
    | some (.arr shots) => do
        checkShots 0 shots
        applyDefaults arch
    | some _ => .error .typeError
    | none => .error .typeError

/-! ## Confidence gate (src/reasoning-engine.js lines 190-230)

`processWithConfidenceGating` first runs generation; everything after the
`generateArchitecture` call is a pure decision function over the resulting
architecture, embedded here as `confidenceGate`. -/

/-- A question as returned on the `needs_clarification` path: the source maps
each selected entry to `{question, context: q.why_it_matters, currentAssumption:
q.default_used}`.  A field holds `none` when the property was `undefined`. -/
structure GateQuestion where
  question : Option Json
  context : Option Json
  currentAssumption : Option Json

/-- A caveat as returned on the `complete_with_caveats` path: the source maps
each low-confidence interpretation to `{element, interpretation, alternatives}`. -/
structure GateCaveat where
  element : Option Json
  interpretation : Option Json
  alternatives : Option Json

/-- The three gate outcomes. -/
inductive GateResult where
  | complete (architecture : Json) : GateResult
  | needsClarification (architecture : Json) (questions : List GateQuestion) : GateResult
  | completeWithCaveats (architecture : Json) (caveats : List GateCaveat) : GateResult

/-- JavaScript number coercion of a read property value, for the relational
comparisons in the gate, as an exact decimal `(mantissa, fraction digits)`
pair denoting `mantissa / 10 ^ digits`.  `none` plays the role of NaN. -/
def toNumber : Option Json → Option (Int × Nat)
  | none => none
  | some .null => some (0, 0)
  | some (.bool b) => some ((if b then 1 else 0), 0)
  | some (.num m e) => some (m, e)
  | some (.str _) => none
  | some (.arr _) => none
  | some (.obj _) => none

/-- `x >= qm / 10 ^ qe` with JavaScript coercion (`NaN` compares false),
cross-multiplied to stay in exact integer arithmetic:
`qm / 10 ^ qe <= m / 10 ^ e` iff `qm * 10 ^ e <= m * 10 ^ qe`.  The gate only
ever reaches the string/array/object rows with values no theorem quantifies
over; they are modelled as NaN (see the simplification note). -/
def jsGE (x : Option Json) (qm : Int) (qe : Nat) : Bool :=
  match toNumber x with
  | some p => decide (qm * 10 ^ p.2 ≤ p.1 * 10 ^ qe)
  | none => false

/-- `x < qm / 10 ^ qe` with JavaScript coercion (`NaN` compares false). -/
def jsLT (x : Option Json) (qm : Int) (qe : Nat) : Bool :=
  match toNumber x with
  | some p => decide (p.1 * 10 ^ qe < qm * 10 ^ p.2)
  | none => false

/-- `missing_info.filter(q => q.criticality === 'high' || !q.default_used)`,
with the property reads throwing exactly where JavaScript would. -/
def selectCritical : List Json → Except EngineError (List Json)
  | [] => .ok []
  | q :: rest => do
      let c ← jsProp q "criticality"
      let d ← jsProp q "default_used"
      let keep := (match c with | some (.str s) => s == "high" | _ => false) || !truthyO d
      let tail ← selectCritical rest
      pure (if keep then q :: tail else tail)

/-- The `.map` on the selected questions. -/
def mapQuestions : List Json → Except EngineError (List GateQuestion)
  | [] => .ok []
  | q :: rest => do
      let a ← jsProp q "question"
      let b ← jsProp q "why_it_matters"
      let c ← jsProp q "default_used"
      let tail ← mapQuestions rest
      pure (⟨a, b, c⟩ :: tail)

/-- `interpretations.filter(i => i.confidence < 0.7)`. -/
def selectCaveats : List Json → Except EngineError (List Json)
  | [] => .ok []
  | i :: rest => do
      let c ← jsProp i "confidence"
      let tail ← selectCaveats rest
      pure (if jsLT c 7 1 then i :: tail else tail)

/-- The `.map` on the low-confidence interpretations. -/
def mapCaveats : List Json → Except EngineError (List GateCaveat)
  | [] => .ok []
  | i :: rest => do
      let a ← jsProp i "element"
      let b ← jsProp i "interpretation"
      let c ← jsProp i "alternatives"
      let tail ← mapCaveats rest
      pure (⟨a, b, c⟩ :: tail)

/-- The `complete_with_caveats` tail of the gate (lines 219-229):
`(result.interpretations || []).filter(i => i.confidence < 0.7).map(...)`. -/
def gateCaveats (result : Json) : Except EngineError GateResult := do
  let iO ← jsProp result "interpretations"
  match jsOr iO (.arr []) with
  | .arr is => do
      let low ← selectCaveats is
      let caveats ← mapCaveats low
      pure (.completeWithCaveats result caveats)
  | _ => .error .typeError

/-- The clarification decision over the `missing_info` entries (lines
202-216): filter, slice to 3, and return `needs_clarification` when the
selection is non-empty; fall through to the caveats tail otherwise. -/
def gateQuestions (result : Json) (qs : List Json) : Except EngineError GateResult := do
  let critical ← selectCritical qs
  let selected := critical.take 3
  if !selected.isEmpty then do
    let questions ← mapQuestions selected
    pure (.needsClarification result questions)
  else gateCaveats result

/-- The low-confidence path: `(result.missing_info || [])` must be an array
for `.filter` to exist. -/
def gateLow (result : Json) : Except EngineError GateResult := do
  let miO ← jsProp result "missing_info"
  match jsOr miO (.arr []) with
  | .arr qs => gateQuestions result qs
  | _ => .error .typeError

/-- The pure decision portion of `processWithConfidenceGating` over the
generated (validated and stamped) architecture. -/
def confidenceGate (result : Json) : Except EngineError GateResult := do
  let mdO ← jsProp result "metadata"
  let cs ← jsProp (mdO.getD .null) "confidence_score"
  if jsGE cs 7 1 then
    pure (.complete result)
  else gateLow result

/-! ## Metadata stamping (src/reasoning-engine.js lines 177-182 and 265-269) -/

/-- The field list produced by spreading a read `metadata` value into an object
literal.  Spreading `null`/`undefined` contributes nothing; spreading an array
would contribute only index keys, none of which is a named metadata field, so
it is modelled as contributing nothing. -/
def spreadFields : Option Json → List (String × Json)
  | some (.obj fs) => fs
  | _ => []

/-- `generateArchitecture`, lines 177-182:
`architecture.metadata = {...architecture.metadata, schema_version: '1.0.0',
created_at: <now>, platform_target: platform}`.  The clock value is the `ts`
parameter. -/
def stampGenerationMetadata (arch : Json) (platform : String) (ts : String) :
    Except EngineError Json := do
  let mdO ← jsProp arch "metadata"
  let fs0 := spreadFields mdO
  let fs1 := objSet fs0 "schema_version" (.str "1.0.0")
  let fs2 := objSet fs1 "created_at" (.str ts)
  let fs3 := objSet fs2 "platform_target" (.str platform)
  jsSet arch "metadata" (.obj fs3)

/-- `feedback.substring(0, n)`. -/
def jsSubstring (s : String) (n : Nat) : String := String.mk (s.data.take n)

/-- The refinement note of line 268:
`feedback.substring(0, 100) + (feedback.length > 100 ? '...' : '')`. -/
def refinementNote (feedback : String) : String :=
  jsSubstring feedback 100 ++ (if 100 < feedback.data.length then "..." else "")

/-- `refineArchitecture`, lines 265-269:
`refined.metadata = {...refined.metadata, updated_at: <now>, refinement_note:
feedback.substring(0, 100) + (feedback.length > 100 ? '...' : '')}`. -/
def stampRefinementMetadata (refined : Json) (feedback : String) (ts : String) :
    Except EngineError Json := do
  let mdO ← jsProp refined "metadata"
  let fs0 := spreadFields mdO
  let fs1 := objSet fs0 "updated_at" (.str ts)
  let fs2 := objSet fs1 "refinement_note" (.str (refinementNote feedback))
  jsSet refined "metadata" (.obj fs2)

/-! ## Response extraction (src/reasoning-engine.js lines 415-437)

`parseResponse` strips markdown code-fence markers, trims, and parses the
remainder with `JSON.parse`; a parse failure (or any failure inside the
subsequent `validateArchitecture` call, which sits inside the same `try`) is
reported as the generic parse failure, with the first 500 characters of the
cleaned text logged. -/

/-- Whitespace characters recognised by the model (the forms of whitespace
occurring in completion texts). -/
def isWsChar (c : Char) : Bool := c == ' ' || c == '\n' || c == '\t' || c == '\r'

/-- `dropWhile` of leading whitespace. -/
def skipWs (cs : List Char) : List Char := cs.dropWhile isWsChar

/-- `String.prototype.trim`: whitespace removed from both ends. -/
def trimChars (cs : List Char) : List Char :=
  ((cs.dropWhile isWsChar).reverse.dropWhile isWsChar).reverse

/-- Whether `pat` occurs as a contiguous substring of `s`
(`String.prototype.includes`). -/
def hasSub (pat : List Char) : List Char → Bool
  | [] => pat.isEmpty
  | c :: cs => pat.isPrefixOf (c :: cs) || hasSub pat cs

/-- `replace(/```json\n?/g, '')`: every occurrence of the ```json marker,
together with one directly following newline, is removed; scanning resumes
after each removal, as the JavaScript global replace does. -/
def stripJsonFence : List Char → List Char
  | '`' :: '`' :: '`' :: 'j' :: 's' :: 'o' :: 'n' :: '\n' :: rest => stripJsonFence rest
  | '`' :: '`' :: '`' :: 'j' :: 's' :: 'o' :: 'n' :: rest => stripJsonFence rest
  | c :: cs => c :: stripJsonFence cs
  | [] => []

/-- `replace(/```\n?/g, '')`. -/
def stripFence3 : List Char → List Char
  | '`' :: '`' :: '`' :: '\n' :: rest => stripFence3 rest
  | '`' :: '`' :: '`' :: rest => stripFence3 rest
  | c :: cs => c :: stripFence3 cs
  | [] => []

/-- Lines 420-424: the ```json markers are stripped (followed by the bare ```
markers) when the text contains ```json; otherwise bare ``` markers are
stripped when the text contains ```; otherwise the text is unchanged. -/
def stripFences (s : String) : String :=
  if hasSub ("```json".data) s.data then
    String.mk (stripFence3 (stripJsonFence s.data))
  else if hasSub ("```".data) s.data then
    String.mk (stripFence3 s.data)
  else s

/-- The cleaned text: fence markers stripped, then trimmed (line 427). -/
def cleanResponse (s : String) : String := String.mk (trimChars (stripFences s).data)

/-! ### A model of `JSON.parse` / `JSON.stringify`

`JSON.parse` is a host-language built-in; it is modelled by a strict
recursive-descent parser over the JSON grammar (see the simplification notes
at the top of the file).  `JSON.stringify` is modelled by `render`, emitting
the compact form with minimal escaping. -/

/-- Numeric value of a decimal digit string (most significant first). -/
def digitsVal (cs : List Char) : Nat :=
  cs.foldl (fun a c => a * 10 + (c.toNat - 48)) 0

/-- The character for a single decimal digit. -/
def digitChar (d : Nat) : Char := Char.ofNat (48 + d)

/-- Decimal digit characters of a natural number, most significant first;
the fuel argument (any value above the digit count suffices) keeps the
recursion structural. -/
def natToDigitsAux : Nat → Nat → List Char
  | 0, _ => []
  | fuel + 1, n =>
      if n < 10 then [digitChar n]
      else natToDigitsAux fuel (n / 10) ++ [digitChar (n % 10)]

/-- Decimal digit characters of a natural number, most significant first. -/
def natToDigits (n : Nat) : List Char := natToDigitsAux (n + 1) n

/-- Value of a hexadecimal digit. -/
def hexVal (c : Char) : Option Nat :=
  if '0' ≤ c && c ≤ '9' then some (c.toNat - 48)
  else if 'a' ≤ c && c ≤ 'f' then some (c.toNat - 87)
  else if 'A' ≤ c && c ≤ 'F' then some (c.toNat - 55)
  else none

/-- Character denoted by a `\uXXXX` escape (surrogate code points rejected:
surrogate pairs are outside the model). -/
def hex4 (a b c d : Char) : Option Char := do
  let x ← hexVal a
  let y ← hexVal b
  let z ← hexVal c
  let w ← hexVal d
  let n := ((x * 16 + y) * 16 + z) * 16 + w
  if n < 0xd800 || 0xe000 ≤ n then some (Char.ofNat n) else none

/-- Short escape sequences inside JSON string literals. -/
def shortEsc : Char → Option Char
  | '"' => some '"'
  | '\\' => some '\\'
  | '/' => some '/'
  | 'b' => some (Char.ofNat 8)
  | 'f' => some (Char.ofNat 12)
  | 'n' => some '\n'
  | 'r' => some '\r'
  | 't' => some '\t'
  | _ => none

/-- Body of a JSON string literal, after the opening quote: returns the
decoded characters and the remainder after the closing quote. -/
def parseStringBody : List Char → Option (List Char × List Char)
  | [] => none
  | '"' :: rest => some ([], rest)
  | '\\' :: 'u' :: a :: b :: c :: d :: rest => do
      let ch ← hex4 a b c d
      let (s, r) ← parseStringBody rest
      pure (ch :: s, r)
  | '\\' :: e :: rest => do
      let ch ← shortEsc e
      let (s, r) ← parseStringBody rest
      pure (ch :: s, r)
  | c :: rest => do
      let (s, r) ← parseStringBody rest
      pure (c :: s, r)

/-- An unsigned JSON number token: integer digits (no redundant leading zero),
optionally a fraction part.  Returns the mantissa, the count of fraction
digits, and the remainder. -/
def parsePosNumber (cs : List Char) : Option (Nat × Nat × List Char) :=
  let ds := cs.takeWhile Char.isDigit
  let rest := cs.drop ds.length
  if ds.isEmpty then none
  else if 1 < ds.length && ds.head? == some '0' then none
  else if rest.head? == some '.' then
    let rest2 := rest.tail
    let fs := rest2.takeWhile Char.isDigit
    if fs.isEmpty then none
    else some (digitsVal (ds ++ fs), fs.length, rest2.drop fs.length)
  else some (digitsVal ds, 0, rest)

/-- A JSON number token, with optional leading minus sign. -/
def parseNumber (cs : List Char) : Option (Json × List Char) :=
  if cs.head? == some '-' then
    (parsePosNumber cs.tail).map (fun p => (.num (-(p.1 : Int)) p.2.1, p.2.2))
  else
    (parsePosNumber cs).map (fun p => (.num (p.1 : Int) p.2.1, p.2.2))

mutual

/-- A JSON value, preceded by optional whitespace.  The fuel argument bounds
the recursion; `jsonParse` supplies more than the input length, which always
suffices. -/
def parseVal : Nat → List Char → Option (Json × List Char)
  | 0, _ => none
  | fuel + 1, cs =>
    let cs1 := skipWs cs
    if ("null".data).isPrefixOf cs1 then some (.null, cs1.drop 4)
    else if ("true".data).isPrefixOf cs1 then some (.bool true, cs1.drop 4)
    else if ("false".data).isPrefixOf cs1 then some (.bool false, cs1.drop 5)
    else if cs1.head? == some '"' then
      (parseStringBody cs1.tail).map (fun p => (.str (String.mk p.1), p.2))
    else if cs1.head? == some '[' then
      (let cs2 := skipWs cs1.tail
       if cs2.head? == some ']' then some (.arr [], cs2.tail)
       else (parseElems fuel cs2).map (fun p => (.arr p.1, p.2)))
    else if cs1.head? == some '{' then
      (let cs2 := skipWs cs1.tail
       if cs2.head? == some '}' then some (.obj [], cs2.tail)
       else (parseMembers fuel cs2).map (fun p => (.obj p.1, p.2)))
    else parseNumber cs1

/-- One or more array elements, comma-separated, ending at `]`. -/
def parseElems : Nat → List Char → Option (List Json × List Char)
  | 0, _ => none
  | fuel + 1, cs => do
      let (v, r) ← parseVal fuel cs
      let r1 := skipWs r
      if r1.head? == some ',' then do
        let (xs, r3) ← parseElems fuel r1.tail
        pure (v :: xs, r3)
      else if r1.head? == some ']' then pure ([v], r1.tail)
      else none

/-- One or more object members, comma-separated, ending at `}`. -/
def parseMembers : Nat → List Char → Option (List (String × Json) × List Char)
  | 0, _ => none
  | fuel + 1, cs => do
      let cs1 := skipWs cs
      if cs1.head? == some '"' then do
        let (k, r1) ← parseStringBody cs1.tail
        let r2 := skipWs r1
        if r2.head? == some ':' then do
          let (v, r3) ← parseVal fuel r2.tail
          let r4 := skipWs r3
          if r4.head? == some ',' then do
            let (fs, r5) ← parseMembers fuel r4.tail
            pure ((String.mk k, v) :: fs, r5)
          else if r4.head? == some '}' then pure ([(String.mk k, v)], r4.tail)
          else none
        else none
      else none

end

/-- The model of `JSON.parse`: the whole (cleaned) text must be a single JSON
value, up to surrounding whitespace. -/
def jsonParse (s : String) : Option Json :=
  match parseVal (s.data.length + 1) s.data with
  | some (v, rest) => if (skipWs rest).isEmpty then some v else none
  | none => none

/-- String-literal escaping used by the model of `JSON.stringify`. -/
def escapeChars : List Char → List Char
  | [] => []
  | c :: cs =>
      (if c == '"' then ['\\', '"']
       else if c == '\\' then ['\\', '\\']
       else [c]) ++ escapeChars cs

/-- Digit characters of the number `num m e` (without the sign): the digits of
`m.natAbs`, left-padded with zeros to at least `e + 1` digits. -/
def padDigits (n : Nat) (e : Nat) : List Char :=
  let ds := natToDigits n
  List.replicate (e + 1 - ds.length) '0' ++ ds

/-- The digits-and-dot body of a rendered number. -/
def numBody (n : Nat) (e : Nat) : List Char :=
  let p := padDigits n e
  if e == 0 then p else p.take (p.length - e) ++ '.' :: p.drop (p.length - e)

/-- Rendering of a number token. -/
def renderNum (m : Int) (e : Nat) : List Char :=
  if m < 0 then '-' :: numBody m.natAbs e else numBody m.natAbs e

mutual

/-- The model of `JSON.stringify` (compact form), as a character list. -/
def render : Json → List Char
  | .null => ("null").data
  | .bool true => ("true").data
  | .bool false => ("false").data
  | .num m e => renderNum m e
  | .str s => '"' :: escapeChars s.data ++ ['"']
  | .arr xs => '[' :: renderList xs ++ [']']
  | .obj fs => '{' :: renderMembers fs ++ ['}']

/-- Comma-separated rendering of array elements. -/
def renderList : List Json → List Char
  | [] => []
  | [x] => render x
  | x :: xs => render x ++ ',' :: renderList xs

/-- Comma-separated rendering of object members. -/
def renderMembers : List (String × Json) → List Char
  | [] => []
  | [(k, v)] => '"' :: escapeChars k.data ++ '"' :: ':' :: render v
  | (k, v) :: fs => ('"' :: escapeChars k.data ++ '"' :: ':' :: render v) ++ ',' :: renderMembers fs

end

/-- The model of `JSON.stringify` as a `String`. -/
def renderString (v : Json) : String := String.mk (render v)

/-! ### `parseResponse` and the generation / refinement compositions -/

/-- The extraction component alone (lines 417-430 up to `JSON.parse`): clean,
then strictly parse.  On failure the error carries the first 500 characters of
the cleaned text (the `console.error` excerpt accompanying the throw). -/
def extractJson (s : String) : Except EngineError Json :=
  match jsonParse (cleanResponse s) with
  | some v => .ok v
  | none => .error (.parseError (jsSubstring (cleanResponse s) 500))

/-- `parseResponse(responseText)`: clean, parse, validate.  The `try`/`catch`
wraps the `validateArchitecture` call too, so a validation failure is also
reported as the generic parse failure with the same logged excerpt. -/
def parseResponse (s : String) : Except EngineError Json :=
  match jsonParse (cleanResponse s) with
  | none => .error (.parseError (jsSubstring (cleanResponse s) 500))
  | some v =>
      match validateArchitecture v with
      | .ok a => .ok a
      | .error _ => .error (.parseError (jsSubstring (cleanResponse s) 500))

/-- `generateArchitecture` after the completion call: parse and validate the
completion text, then stamp the generation metadata.  `platform` is the
`options.platform` value (`none` when the option is unset, in which case the
destructuring default `'platform-agnostic'` applies); `ts` is the clock
value. -/
def generateFromCompletion (responseText : String) (platform : Option String) (ts : String) :
    Except EngineError Json := do
  let arch ← parseResponse responseText
  stampGenerationMetadata arch (platform.getD "platform-agnostic") ts

/-- `refineArchitecture` after the completion call: parse and validate the
completion text, then stamp the refinement metadata. -/
def refineFromCompletion (responseText : String) (feedback : String) (ts : String) :
    Except EngineError Json := do
  let refined ← parseResponse responseText
  stampRefinementMetadata refined feedback ts

/-! ### Spec-side cleaning, for the refinement comparison

The specification describes the cleaning step as removing "any fenced
code-block markers (a delimiter optionally followed by a language tag,
anywhere in the text, open and close)".  `specStripFences` below is modelled
from those words — a second definition alongside the source-derived
`stripFences`, used only to compare the two behaviours. -/

/-- Modelled from the spec: remove every ``` delimiter together with a
directly following language tag (a run of letters) and one directly following
newline.  Fuel-based so the recursion stays structural; the supplied fuel
always suffices. -/
def specStripAux : Nat → List Char → List Char
  | 0, cs => cs
  | fuel + 1, cs =>
      match cs with
      | '`' :: '`' :: '`' :: rest =>
          let r1 := rest.dropWhile Char.isAlpha
          let r2 := match r1 with
            | '\n' :: t => t
            | _ => r1
          specStripAux fuel r2
      | c :: cs2 => c :: specStripAux fuel cs2
      | [] => []

/-- Modelled from the spec: the cleaning step as the specification words it. -/
def specStripFences (s : String) : String := String.mk (specStripAux (s.data.length + 1) s.data)

/-- Modelled from the spec: spec-side cleaned text (fences stripped as worded
in the spec, then trimmed). -/
def specCleanResponse (s : String) : String := String.mk (trimChars (specStripFences s).data)

/-! ## Prompt assembly (src/reasoning-engine.js lines 292-368)

`buildUserPrompt` and `formatStructuredInput` over the creative-input variants
the source dispatches on.  Truthiness guards (`if (input.concept)` etc.) make
empty strings behave like absent fields; this is embedded faithfully. -/

/-- A visual reference entry `{description, url?}`. -/
structure RefItem where
  description : String
  url : Option String

/-- A character entry of structured input `{name, description}`. -/
structure CharItem where
  name : String
  description : String

/-- `input.tone`: the source accepts a single string or an array of strings. -/
inductive ToneInput where
  | one (t : String) : ToneInput
  | many (ts : List String) : ToneInput

/-- The optional sub-fields of structured (wizard) input, in source order. -/
structure StructuredFields where
  concept : Option String
  tone : Option ToneInput
  narrative : Option String
  characters : Option (List CharItem)
  shots : Option (List String)
  style : Option String
  constraints : Option String

/-- The creative-input variants `buildUserPrompt` dispatches on: a plain
string, `{type: 'text', content}`, `{type: 'deck', filename, parsedContent}`,
or `{type: 'structured', ...}`; the object variants optionally carry a
`references` list. -/
inductive CreativeInput where
  | plain (content : String) : CreativeInput
  | text (content : String) (references : Option (List RefItem)) : CreativeInput
  | deck (filename : String) (parsedContent : String) (references : Option (List RefItem)) :
      CreativeInput
  | structured (fields : StructuredFields) (references : Option (List RefItem)) : CreativeInput

/-- The options `generateArchitecture` passes to `buildUserPrompt`: `platform`
already carries its destructuring default; `shotCount` and `brandContext` are
`null` when unset. -/
structure BuildOptions where
  platform : String
  shotCount : Option Nat
  brandContext : Option String

/-- `Array.prototype.join(sep)`. -/
def joinSep (sep : String) : List String → String
  | [] => ""
  | [x] => x
  | x :: xs => x ++ sep ++ joinSep sep xs

/-- JavaScript string conversion of a (natural) number. -/
def natStr (n : Nat) : String := String.mk (natToDigits n)

/-- `map((x, i) => ...)` numbering used for references and shot ideas:
`i + 1` then `. ` then the item text. -/
def numberItems (i : Nat) : List String → List String
  | [] => []
  | x :: xs => (natStr (i + 1) ++ ". " ++ x) :: numberItems (i + 1) xs

/-- `formatStructuredInput(input)` (lines 348-368). -/
def formatStructuredInput (f : StructuredFields) : String :=
  let conceptPart := match f.concept with
    | some c => if c == "" then [] else ["Concept: " ++ c]
    | none => []
  let tonePart := match f.tone with
    | some (.one t) => if t == "" then [] else ["Tone: " ++ t]
    | some (.many ts) => ["Tone: " ++ joinSep ", " ts]
    | none => []
  let narrativePart := match f.narrative with
    | some n => if n == "" then [] else ["Narrative: " ++ n]
    | none => []
  let charactersPart := match f.characters with
    | some cs => ["Characters:\n" ++ joinSep "\n" (cs.map (fun c => "- " ++ c.name ++ ": " ++ c.description))]
    | none => []
  let shotsPart := match f.shots with
    | some ss => ["Shot ideas:\n" ++ joinSep "\n" (numberItems 0 ss)]
    | none => []
  let stylePart := match f.style with
    | some st => if st == "" then [] else ["Style notes: " ++ st]
    | none => []
  let constraintsPart := match f.constraints with
    | some co => if co == "" then [] else ["Constraints: " ++ co]
    | none => []
  joinSep "\n\n"
    (conceptPart ++ tonePart ++ narrativePart ++ charactersPart ++ shotsPart ++ stylePart ++
      constraintsPart)

/-- The `references` list carried by an input variant (a plain string carries
none). -/
def inputReferences : CreativeInput → Option (List RefItem)
  | .plain _ => none
  | .text _ r => r
  | .deck _ _ r => r
  | .structured _ r => r

/-- The rendered `inputSection` of `buildUserPrompt`. -/
def inputSection : CreativeInput → String
  | .plain content => content
  | .text content _ => content
  | .deck filename parsedContent _ =>
      "[Parsed from deck: " ++ filename ++ "]\n\n" ++ parsedContent
  | .structured f _ => formatStructuredInput f

/-- One rendered reference line. -/
def refLine (r : RefItem) : String :=
  r.description ++ (match r.url with
    | some u => if u == "" then "" else " (" ++ u ++ ")"
    | none => "")

/-- The rendered `referencesSection` (empty when `references` is unset or
empty). -/
def referencesSection (inp : CreativeInput) : String :=
  match inputReferences inp with
  | some rs =>
      if rs.isEmpty then ""
      else "\n## Visual References\n" ++ joinSep "\n" (numberItems 0 (rs.map refLine))
  | none => ""

/-- The shot-count requirement text: `${shotCount || 'infer from content ...'}`
(a `0` count is falsy and also yields the infer instruction). -/
def shotCountText (shotCount : Option Nat) : String :=
  match shotCount with
  | some n => if n == 0 then "infer from content (typically 4-8 for a :15-:30 spot)" else natStr n
  | none => "infer from content (typically 4-8 for a :15-:30 spot)"

/-- The brand-context requirement line (empty when unset or empty). -/
def brandLine (brandContext : Option String) : String :=
  match brandContext with
  | some b => if b == "" then "" else "- Brand context: " ++ b
  | none => ""

/-- Pure property lookup on a JSON value (agrees with `jsProp` away from
`null`, where `jsProp` throws). -/
def propOf : Json → String → Option Json
  | .obj fs, k => objGet fs k
  | _, _ => none

/-- Two-level lookup into the `metadata` mapping of an architecture. -/
def metaGet (a : Json) (k : String) : Option Json :=
  match propOf a "metadata" with
  | some (.obj g) => objGet g k
  | _ => none

/-- Whether a shot passes the per-shot check of `validateArchitecture`:
a truthy `prompt` carrying a truthy `full_prompt`. -/
def goodShot (s : Json) : Bool :=
  !isNull s && truthyO (propOf s "prompt") &&
    truthyO (propOf ((propOf s "prompt").getD .null) "full_prompt")

/-- The gate's question filter `q.criticality === 'high' || !q.default_used`,
as a pure predicate (on non-`null` entries). -/
def qKeep (q : Json) : Bool :=
  (match propOf q "criticality" with
   | some (.str s) => s == "high"
   | _ => false) || !truthyO (propOf q "default_used")

/-- The gate's question reduction, as a pure function. -/
def reduceQ (q : Json) : GateQuestion :=
  ⟨propOf q "question", propOf q "why_it_matters", propOf q "default_used"⟩

/-- The gate's interpretation filter `i.confidence < 0.7`, as a pure
predicate. -/
def iKeep (i : Json) : Bool := jsLT (propOf i "confidence") 7 1

/-- The gate's caveat reduction, as a pure function. -/
def reduceC (i : Json) : GateCaveat :=
  ⟨propOf i "element", propOf i "interpretation", propOf i "alternatives"⟩

/-- Whether an `Except` computation succeeded. -/
def isOkE {α : Type} (x : Except EngineError α) : Bool :=
  match x with
  | .ok _ => true
  | .error _ => false

/-- Well-shapedness of an optional-collection field as the data model
prescribes, for the gate: absent and falsy values are replaced by `[]` by
`x || []`; a truthy value must be a sequence without `null` entries. -/
def seqShape (o : Option Json) : Bool :=
  match o with
  | none => true
  | some v =>
      if truthy v then
        match v with
        | .arr xs => xs.all (fun x => !isNull x)
        | _ => false
      else true

/-- The shot-number invariant claimed by the data model: `shot_number` values
form the contiguous sequence `1, 2, 3, ...` (as numeric values: the literal
`m / 10 ^ e` equals `i + 1` exactly when `m = (i + 1) * 10 ^ e`). -/
def shotNumbersOk (a : Json) : Bool :=
  match propOf a "shots" with
  | some (.arr ss) =>
      (List.range ss.length).all (fun i =>
        match ss.get? i with
        | some s =>
            (match propOf s "shot_number" with
             | some (.num m e) => m == ((i : Int) + 1) * 10 ^ e
             | _ => false)
        | none => false)
  | _ => false

/-- `buildUserPrompt(input, options)` (lines 292-346). -/
def buildUserPrompt (inp : CreativeInput) (opts : BuildOptions) : String :=
  "\n## Creative Input\n\n" ++ inputSection inp ++ "\n" ++ referencesSection inp ++
    "\n\n## Requirements\n\n- Target platform: " ++ opts.platform ++
    "\n- Number of shots: " ++ shotCountText opts.shotCount ++
    "\n- Output format: Complete JSON matching the prompt_architecture_schema\n" ++
    brandLine opts.brandContext ++
    "\n\n## Instructions\n\nAnalyze this creative input and produce a complete prompt architecture.\n\nYou MUST include:\n1. All required schema fields (metadata, project, global_style, shots)\n2. Copy/paste ready prompts for each shot in shots[].prompt.full_prompt\n3. Component breakdown in shots[].prompt.prompt_components\n4. All interpretive decisions you made in the interpretations[] array\n5. Any questions that would improve the output in missing_info[]\n\nFor EACH shot prompt, structure it as:\n[Subject with full character description if applicable] + [Action/motion] + [Environment] + [Lighting] + [Camera/framing] + [Style/quality markers]\n\nOutput valid JSON only. No markdown, no explanation outside the JSON.\n"

/-- The index of the first shot failing the per-shot check. -/
def firstBad : List Json → Option Nat
  | [] => none
  | s :: rest => if !goodShot s then some 0 else (firstBad rest).map (fun j => j + 1)

/-- The defaulting tail of the validator, as a pure value: the architecture
with `metadata` replaced by `md1` and the four optional collections
defaulted. -/
def tailOut (fs : List (String × Json)) (md1 : Json) : Json :=
  let fs1 := objSet fs "metadata" md1
  let fs2 := objSet fs1 "interpretations" (jsOr (objGet fs1 "interpretations") (.arr []))
  let fs3 := objSet fs2 "missing_info" (jsOr (objGet fs2 "missing_info") (.arr []))
  let fs4 := objSet fs3 "characters" (jsOr (objGet fs3 "characters") (.arr []))
  let fs5 := objSet fs4 "environments" (jsOr (objGet fs4 "environments") (.arr []))
  .obj fs5

/-- The defaulted `metadata` fields: `confidence_score` is kept when numeric
and set to `0.8` otherwise. -/
def mfsOut (mfs : List (String × Json)) : List (String × Json) :=
  match objGet mfs "confidence_score" with
  | some (.num _ _) => mfs
  | _ => objSet mfs "confidence_score" (.num 8 1)

/-- The validator output on an object architecture with an object `metadata`
passing all checks. -/
def valOut (fs mfs : List (String × Json)) : Json := tailOut fs (.obj (mfsOut mfs))

/-- A concrete completion text: a minimal valid architecture document. -/
def cRaw : String :=
  "\x7b\"metadata\":\x7b\"confidence_score\":0.9\x7d,\"project\":\"p\",\"global_style\":\"s\",\"shots\":[\x7b\"prompt\":\x7b\"full_prompt\":\"x\"\x7d\x7d]\x7d"

/-- The validated architecture parsed from `cRaw`. -/
def cA0 : Json :=
  .obj [("metadata", .obj [("confidence_score", .num 9 1)]), ("project", .str ("p")),
    ("global_style", .str ("s")),
    ("shots", .arr [.obj [("prompt", .obj [("full_prompt", .str ("x"))])]]),
    ("interpretations", .arr []), ("missing_info", .arr []), ("characters", .arr []),
    ("environments", .arr [])]

/-- The refinement result for `cRaw` with feedback `feedback` at time `T1`. -/
def cAR : Json :=
  .obj [("metadata", .obj [("confidence_score", .num 9 1), ("updated_at", .str ("T1")),
    ("refinement_note", .str ("feedback"))]), ("project", .str ("p")),
    ("global_style", .str ("s")),
    ("shots", .arr [.obj [("prompt", .obj [("full_prompt", .str ("x"))])]]),
    ("interpretations", .arr []), ("missing_info", .arr []), ("characters", .arr []),
    ("environments", .arr [])]

/-- The generation result for `cRaw` with no platform option at time `T0`. -/
def cAG : Json :=
  .obj [("metadata", .obj [("confidence_score", .num 9 1), ("schema_version", .str ("1.0.0")),
    ("created_at", .str ("T0")), ("platform_target", .str ("platform-agnostic"))]),
    ("project", .str ("p")), ("global_style", .str ("s")),
    ("shots", .arr [.obj [("prompt", .obj [("full_prompt", .str ("x"))])]]),
    ("interpretations", .arr []), ("missing_info", .arr []), ("characters", .arr []),
    ("environments", .arr [])]

/-- A validated architecture with confidence 0.4 whose `missing_info` is a
truthy string — a value the validator passes through unchanged. -/
def c1In : Json :=
  .obj [("metadata", .obj [("confidence_score", .num 4 1)]), ("project", .str ("p")),
    ("global_style", .str ("g")),
    ("shots", .arr [.obj [("prompt", .obj [("full_prompt", .str ("x"))])]]),
    ("missing_info", .str ("oops"))]

/-- The validator output for `c1In`: still carrying the string `missing_info`. -/
def c1V : Json :=
  .obj [("metadata", .obj [("confidence_score", .num 4 1)]), ("project", .str ("p")),
    ("global_style", .str ("g")),
    ("shots", .arr [.obj [("prompt", .obj [("full_prompt", .str ("x"))])]]),
    ("missing_info", .str ("oops")), ("interpretations", .arr []), ("characters", .arr []),
    ("environments", .arr [])]

/-- A well-shaped architecture with confidence 0.9. -/
def c1HighFs : List (String × Json) :=
  [("metadata", .obj [("confidence_score", .num 9 1)]), ("project", .str ("p")),
    ("global_style", .str ("g")),
    ("shots", .arr [.obj [("prompt", .obj [("full_prompt", .str ("x"))])]])]

/-- The high-criticality question of the specification example. -/
def c2Q1 : Json :=
  .obj [("question", .str ("Q1")), ("why_it_matters", .str ("W1")),
    ("criticality", .str ("high")), ("default_used", .bool false)]

/-- The low-criticality, defaulted question of the specification example. -/
def c2Q2 : Json :=
  .obj [("question", .str ("Q2")), ("why_it_matters", .str ("W2")),
    ("criticality", .str ("low")), ("default_used", .bool true)]

/-- A well-shaped architecture with confidence 0.4 and the two questions of
the specification example. -/
def c2Fs : List (String × Json) :=
  [("metadata", .obj [("confidence_score", .num 4 1)]), ("project", .str ("p")),
    ("global_style", .str ("g")),
    ("shots", .arr [.obj [("prompt", .obj [("full_prompt", .str ("x"))])]]),
    ("missing_info", .arr [c2Q1, c2Q2])]

/-- The remainder following a rendered value inside a document: empty or a
structural separator (never a digit, dot, or whitespace). -/
def sepOk : List Char → Prop
  | [] => True
  | c :: _ => c = ',' ∨ c = ']' ∨ c = '}'

/-- The placeholder tokens C8 rules out of the assembled prompt. -/
def isTok (pat : List Char) : Prop := pat = ("null").data ∨ pat = ("undefined").data

/-- A string free of the token `pat`. -/
def strClean (pat : List Char) (s : String) : Bool := !(hasSub pat s.data)

/-- All strings of a reference list free of the token. -/
def refsClean (pat : List Char) : Option (List RefItem) → Bool
  | none => true
  | some rs => rs.all (fun r => strClean pat r.description &&
      (match r.url with
       | some u => strClean pat u
       | none => true))

/-- An optional string free of the token. -/
def optStrClean (pat : List Char) : Option String → Bool
  | none => true
  | some s => strClean pat s

/-- The tone field free of the token. -/
def toneClean (pat : List Char) : Option ToneInput → Bool
  | none => true
  | some (.one t) => strClean pat t
  | some (.many ts) => ts.all (strClean pat)

/-- The character entries free of the token. -/
def charsClean (pat : List Char) : Option (List CharItem) → Bool
  | none => true
  | some cs => cs.all (fun c => strClean pat c.name && strClean pat c.description)

/-- Every user-supplied string of a structured input free of the token. -/
def fieldsClean (pat : List Char) (f : StructuredFields) : Bool :=
  optStrClean pat f.concept && toneClean pat f.tone && optStrClean pat f.narrative &&
    charsClean pat f.characters &&
    (match f.shots with
     | none => true
     | some ss => ss.all (strClean pat)) &&
    optStrClean pat f.style && optStrClean pat f.constraints

/-- Every user-supplied string of a creative input free of the token. -/
def inputClean (pat : List Char) : CreativeInput → Bool
  | .plain c => strClean pat c
  | .text c r => strClean pat c && refsClean pat r
  | .deck fn pc r => strClean pat fn && strClean pat pc && refsClean pat r
  | .structured f r => fieldsClean pat f && refsClean pat r

/-- Every user-supplied string of the options free of the token. -/
def optsClean (pat : List Char) (o : BuildOptions) : Bool :=
  strClean pat o.platform && optStrClean pat o.brandContext

/-- Concrete structured creative input for the C8 witness, with every optional
field populated. -/
def c8In : CreativeInput :=
  .structured
    ⟨some "A journey home", some (.many ["epic", "warm"]), some "Act one",
     some [⟨"Hero", "tall and calm"⟩], some ["opening shot", "close-up"],
     some "cinematic", some "no on-screen text"⟩
    (some [⟨"moodboard", some "http://x"⟩])

/-- Concrete options for the C8 witness. -/
def c8Opts : BuildOptions := ⟨"youtube", some 5, some "BrandCo"⟩

/-- An architecture whose first AND second shots both lack `full_prompt`. -/
def c3In : Json :=
  .obj [("metadata", .obj [("confidence_score", .num 9 1)]), ("project", .str ("p")),
    ("global_style", .str ("g")), ("shots", .arr [.obj [], .obj []])]

/-- An architecture missing three of the four required fields. -/
def c3MissIn : Json := .obj [("metadata", .obj [("confidence_score", .num 9 1)])]

/-- An architecture passing all checks whose `interpretations` field is
present but `null`. -/
def c4NullFs : List (String × Json) :=
  [("metadata", .obj [("confidence_score", .num 9 1)]), ("project", .str ("p")),
    ("global_style", .str ("g")),
    ("shots", .arr [.obj [("prompt", .obj [("full_prompt", .str ("x"))])]]),
    ("interpretations", Json.null)]

/-- The validator output for `c4NullFs`. -/
def c4NullOutFs : List (String × Json) :=
  [("metadata", .obj [("confidence_score", .num 9 1)]), ("project", .str ("p")),
    ("global_style", .str ("g")),
    ("shots", .arr [.obj [("prompt", .obj [("full_prompt", .str ("x"))])]]),
    ("interpretations", .arr []), ("missing_info", .arr []), ("characters", .arr []),
    ("environments", .arr [])]

/-- An architecture passing all checks whose `metadata` is a (truthy)
primitive string. -/
def c4MetaStrFs : List (String × Json) :=
  [("metadata", .str ("hello")), ("project", .str ("p")), ("global_style", .str ("g")),
    ("shots", .arr [.obj [("prompt", .obj [("full_prompt", .str ("x"))])]])]

/-- An architecture the validator accepts whose single shot carries
`shot_number` 7. -/
def c7In : Json :=
  .obj [("metadata", .obj [("confidence_score", .num 9 1)]), ("project", .str ("p")),
    ("global_style", .str ("g")),
    ("shots", .arr [.obj [("shot_number", .num 7 0),
      ("prompt", .obj [("full_prompt", .str ("x"))])]])]

/-- The validator output for `c7In`. -/
def c7Out : Json :=
  .obj [("metadata", .obj [("confidence_score", .num 9 1)]), ("project", .str ("p")),
    ("global_style", .str ("g")),
    ("shots", .arr [.obj [("shot_number", .num 7 0),
      ("prompt", .obj [("full_prompt", .str ("x"))])]]),
    ("interpretations", .arr []), ("missing_info", .arr []), ("characters", .arr []),
    ("environments", .arr [])]

/-! ## Supporting lemmas: property lookup and update -/

theorem string_mk_data (s : String) : String.mk s.data = s := rfl

theorem objGet_objReplace_self (fs : List (String × Json)) (k : String) (v : Json) :
    objGet (objReplace fs k v) k = (objGet fs k).map (fun _ => v) := by
  induction fs with
  | nil => rfl
  | cons p fs ih =>
      simp only [objReplace, objGet, ih]
      rcases hfk : objGet fs k with _ | r
      · by_cases hk : p.1 = k <;> simp [hk]
      · simp

theorem objGet_objReplace_ne (fs : List (String × Json)) (k : String) (v : Json) (k2 : String)
    (h : k2 ≠ k) : objGet (objReplace fs k v) k2 = objGet fs k2 := by
  induction fs with
  | nil => rfl
  | cons p fs ih =>
      simp only [objReplace, objGet, ih]
      rcases hfk : objGet fs k2 with _ | r
      · by_cases hk : p.1 = k
        · have hk2 : ¬ p.1 = k2 := by rw [hk]; exact fun hh => h (Eq.symm hh)
          have hkk2 : ¬ k = k2 := fun hh => h (Eq.symm hh)
          simp [hk, hk2, hkk2]
        · simp [hk]
      · simp

theorem objGet_objSet_self (fs : List (String × Json)) (k : String) (v : Json) :
    objGet (objSet fs k v) k = some v := by
  induction fs with
  | nil => simp [objSet, objGet]
  | cons p fs ih =>
      by_cases hk : p.1 = k
      · simp only [objSet, hk, beq_self_eq_true, if_true]
        simp only [objGet, objGet_objReplace_self]
        rcases hfk : objGet fs k with _ | r <;> simp [hk]
      · have hb : (p.1 == k) = false := by simp [hk]
        simp only [objSet, hb, Bool.false_eq_true, if_false]
        simp [objGet, ih]

theorem objGet_objSet_ne (fs : List (String × Json)) (k : String) (v : Json) (k2 : String)
    (h : k2 ≠ k) : objGet (objSet fs k v) k2 = objGet fs k2 := by
  induction fs with
  | nil =>
      have hb : ¬ k = k2 := fun hh => h (Eq.symm hh)
      simp [objSet, objGet, hb]
  | cons p fs ih =>
      by_cases hk : p.1 = k
      · have hkk2 : ¬ k = k2 := fun hh => h (Eq.symm hh)
        simp only [objSet, hk, beq_self_eq_true, if_true]
        simp only [objGet, objGet_objReplace_ne fs k v k2 h]
        rw [hk]
        rcases hfk : objGet fs k2 with _ | r <;> simp [hkk2]
      · have hb : (p.1 == k) = false := by simp [hk]
        simp only [objSet, hb, Bool.false_eq_true, if_false]
        simp [objGet, ih]

theorem jsProp_obj (fs : List (String × Json)) (k : String) :
    jsProp (.obj fs) k = .ok (objGet fs k) := rfl

theorem jsProp_of_not_null (s : Json) (h : isNull s = false) (k : String) :
    jsProp s k = .ok (propOf s k) := by
  cases s <;> simp_all [isNull, jsProp, propOf]

theorem truthy_not_null (v : Json) (h : truthy v = true) : isNull v = false := by
  cases v <;> simp_all [truthy, isNull]

theorem ebind_ok {α β : Type} (a : α) (f : α → Except EngineError β) :
    (Except.ok a >>= f) = f a := rfl

theorem ebind_err {α β : Type} (e : EngineError) (f : α → Except EngineError β) :
    ((Except.error e : Except EngineError α) >>= f) = .error e := rfl

/-! ## Supporting lemmas: the validator -/

theorem collectMissing_obj (l : List String) (fs : List (String × Json)) :
    collectMissing l (.obj fs) = .ok (l.filter (fun f => !truthyO (objGet fs f))) := by
  induction l with
  | nil => rfl
  | cons f rest ih =>
      simp only [collectMissing, jsProp_obj, ebind_ok, ih, List.filter]
      rcases truthyO (objGet fs f) with _ | _ <;> rfl

theorem collectMissing_nonobj (l : List String) (arch : Json) (hno : ∀ gs, arch ≠ .obj gs)
    (hnn : isNull arch = false) : collectMissing l arch = .ok l := by
  have hp : ∀ k, jsProp arch k = .ok none := by
    intro k
    cases arch with
    | null => simp [isNull] at hnn
    | obj gs => exact absurd rfl (hno gs)
    | bool b => rfl
    | num m e => rfl
    | str s2 => rfl
    | arr xs => rfl
  induction l with
  | nil => rfl
  | cons f rest ih => simp [collectMissing, hp, ebind_ok, ih, truthyO]

theorem checkShots_cons_good (i : Nat) (s : Json) (rest : List Json)
    (h : goodShot s = true) : checkShots i (s :: rest) = checkShots (i + 1) rest := by
  simp only [goodShot, Bool.and_eq_true] at h
  obtain ⟨⟨h1, h2⟩, h3⟩ := h
  have hnn : isNull s = false := by simpa using h1
  simp only [checkShots, jsProp_of_not_null s hnn, ebind_ok]
  rcases hp : propOf s "prompt" with _ | pv
  · rw [hp] at h2; simp [truthyO] at h2
  · rw [hp] at h2 h3
    have ht : truthy pv = true := by simpa [truthyO] using h2
    have hf : truthyO (propOf pv "full_prompt") = true := by simpa using h3
    have hpvnn : isNull pv = false := truthy_not_null pv ht
    simp [ht, jsProp_of_not_null pv hpvnn, ebind_ok, hf]

theorem checkShots_cons_bad (i : Nat) (s : Json) (rest : List Json)
    (hnn : isNull s = false) (h : goodShot s = false) :
    checkShots i (s :: rest) =
      .error (.schemaError ("Shot " ++ toString (i + 1) ++ " missing full_prompt")) := by
  simp only [checkShots, jsProp_of_not_null s hnn, ebind_ok]
  rcases hp : propOf s "prompt" with _ | pv
  · rfl
  · rcases hb : truthy pv with _ | _
    · simp [hb]
    · have hpvnn : isNull pv = false := truthy_not_null pv hb
      rcases Bool.eq_false_or_eq_true (truthyO (propOf pv "full_prompt")) with hf | hf
      case inr => simp [hb, jsProp_of_not_null pv hpvnn, ebind_ok, hf]
      case inl =>
        exfalso
        have hg : goodShot s = true := by
          simp only [goodShot, hnn, hp, Bool.not_false, Bool.true_and, Option.getD]
          simp [truthyO, hb]
          exact hf
        rw [hg] at h
        simp at h

theorem checkShots_ok_of_good (ss : List Json) (hg : ∀ s ∈ ss, goodShot s = true) (i : Nat) :
    checkShots i ss = .ok () := by
  induction ss generalizing i with
  | nil => rfl
  | cons s rest ih =>
      rw [checkShots_cons_good i s rest (hg s (by simp))]
      exact ih (fun x hx => hg x (by simp [hx])) (i + 1)

theorem good_of_checkShots_ok (ss : List Json) (i : Nat) (h : checkShots i ss = .ok ()) :
    ∀ s ∈ ss, goodShot s = true := by
  induction ss generalizing i with
  | nil => intro s hs; simp at hs
  | cons s rest ih =>
      intro x hx
      rcases hnn : isNull s with _ | _
      · rcases hgs : goodShot s with _ | _
        · rw [checkShots_cons_bad i s rest hnn hgs] at h
          exact Except.noConfusion h
        · rw [checkShots_cons_good i s rest hgs] at h
          rcases List.mem_cons.mp hx with h1 | h2
          · rw [h1]; exact hgs
          · exact ih (i + 1) h x h2
      · have hcrash : checkShots i (s :: rest) = .error .typeError := by
          have hsn : s = .null := by cases s <;> simp_all [isNull]
          simp [checkShots, hsn, jsProp, ebind_err]
        rw [hcrash] at h
        exact Except.noConfusion h

theorem checkShots_firstBad (ss : List Json) (j : Nat)
    (hnn : ∀ s ∈ ss, isNull s = false) (hj : firstBad ss = some j) (i : Nat) :
    checkShots i ss =
      .error (.schemaError ("Shot " ++ toString (i + j + 1) ++ " missing full_prompt")) := by
  induction ss generalizing i j with
  | nil => simp [firstBad] at hj
  | cons s rest ih =>
      rcases hgs : goodShot s with _ | _
      · simp only [firstBad, hgs, Bool.not_false, if_true, Option.some.injEq] at hj
        rw [← hj]
        have heq := checkShots_cons_bad i s rest (hnn s (by simp)) hgs
        have harith : i + 0 + 1 = i + 1 := by omega
        rw [harith]
        exact heq
      · simp only [firstBad, hgs, Bool.not_true, Bool.false_eq_true, if_false] at hj
        rcases hk : firstBad rest with _ | j2
        · rw [hk] at hj; exact Option.noConfusion hj
        · rw [hk] at hj
          simp only [Option.map_some', Option.some.injEq] at hj
          rw [← hj]
          rw [checkShots_cons_good i s rest hgs]
          have harith : i + 1 + j2 + 1 = i + (j2 + 1) + 1 := by omega
          rw [ih j2 (fun x hx => hnn x (by simp [hx])) hk (i + 1), harith]

theorem collectMissing_required (fs : List (String × Json)) :
    collectMissing requiredFields (.obj fs) = .ok (missingOf fs) :=
  collectMissing_obj requiredFields fs

theorem validate_missing (fs : List (String × Json)) (h : missingOf fs ≠ []) :
    validateArchitecture (.obj fs) =
      .error (.schemaError
        ("Architecture missing required fields: " ++ String.intercalate ", " (missingOf fs))) := by
  simp only [validateArchitecture, collectMissing_required, ebind_ok]
  rw [if_pos h]

theorem validate_run (fs : List (String × Json)) (ss : List Json)
    (hm : missingOf fs = []) (hs : objGet fs "shots" = some (.arr ss))
    (hg : ∀ s ∈ ss, goodShot s = true) :
    validateArchitecture (.obj fs) = applyDefaults (.obj fs) := by
  simp only [validateArchitecture, collectMissing_required, ebind_ok, hm]
  rw [if_neg (by simp)]
  simp only [jsProp_obj, hs, ebind_ok]
  rw [checkShots_ok_of_good ss hg 0, ebind_ok]

theorem validate_shot_error (fs : List (String × Json)) (ss : List Json) (j : Nat)
    (hm : missingOf fs = []) (hs : objGet fs "shots" = some (.arr ss))
    (hnn : ∀ s ∈ ss, isNull s = false) (hj : firstBad ss = some j) :
    validateArchitecture (.obj fs) =
      .error (.schemaError ("Shot " ++ toString (j + 1) ++ " missing full_prompt")) := by
  simp only [validateArchitecture, collectMissing_required, ebind_ok, hm]
  rw [if_neg (by simp)]
  simp only [jsProp_obj, hs, ebind_ok]
  rw [checkShots_firstBad ss j hnn hj 0, ebind_err]
  norm_num

theorem applyDefaults_unfold (fs : List (String × Json)) (md : Json)
    (hmd : objGet fs "metadata" = some md) (hnn : isNull md = false) :
    applyDefaults (.obj fs) =
      ((match propOf md "confidence_score" with
        | some (.num _ _) => Except.ok md
        | _ => jsSet md "confidence_score" (.num 8 1)) >>=
        fun md1 => .ok (tailOut fs md1)) := by
  simp only [applyDefaults, jsProp_obj, hmd, ebind_ok, Option.getD,
    jsProp_of_not_null md hnn]
  rcases hcs : propOf md "confidence_score" with _ | v
  · rcases hset : jsSet md "confidence_score" (.num 8 1) with e | md1
    · simp [ebind_ok, hset, ebind_err]
    · simp [ebind_ok, hset, tailOut, jsSet, jsProp_obj, jsOr]
  · cases v with
    | num m e =>
        simp [ebind_ok, tailOut, jsSet, jsProp_obj, jsOr]
    | null =>
        rcases hset : jsSet md "confidence_score" (.num 8 1) with e | md1
        · simp [ebind_ok, hset, ebind_err]
        · simp [ebind_ok, hset, tailOut, jsSet, jsProp_obj, jsOr]
    | bool b =>
        rcases hset : jsSet md "confidence_score" (.num 8 1) with e | md1
        · simp [ebind_ok, hset, ebind_err]
        · simp [ebind_ok, hset, tailOut, jsSet, jsProp_obj, jsOr]
    | str s2 =>
        rcases hset : jsSet md "confidence_score" (.num 8 1) with e | md1
        · simp [ebind_ok, hset, ebind_err]
        · simp [ebind_ok, hset, tailOut, jsSet, jsProp_obj, jsOr]
    | arr xs =>
        rcases hset : jsSet md "confidence_score" (.num 8 1) with e | md1
        · simp [ebind_ok, hset, ebind_err]
        · simp [ebind_ok, hset, tailOut, jsSet, jsProp_obj, jsOr]
    | obj gs =>
        rcases hset : jsSet md "confidence_score" (.num 8 1) with e | md1
        · simp [ebind_ok, hset, ebind_err]
        · simp [ebind_ok, hset, tailOut, jsSet, jsProp_obj, jsOr]

theorem applyDefaults_obj (fs mfs : List (String × Json))
    (hmd : objGet fs "metadata" = some (.obj mfs)) :
    applyDefaults (.obj fs) = .ok (valOut fs mfs) := by
  rw [applyDefaults_unfold fs (.obj mfs) hmd (by rfl)]
  simp only [propOf]
  rcases hcs : objGet mfs "confidence_score" with _ | v
  · simp [jsSet, ebind_ok, valOut, mfsOut, hcs]
  · cases v <;> simp [jsSet, ebind_ok, valOut, mfsOut, hcs]

theorem tailOut_metadata (fs : List (String × Json)) (md1 : Json) :
    propOf (tailOut fs md1) "metadata" = some md1 := by
  simp only [tailOut, propOf]
  rw [objGet_objSet_ne _ _ _ _ (by decide), objGet_objSet_ne _ _ _ _ (by decide),
    objGet_objSet_ne _ _ _ _ (by decide), objGet_objSet_ne _ _ _ _ (by decide),
    objGet_objSet_self]

theorem tailOut_other (fs : List (String × Json)) (md1 : Json) (k : String)
    (h1 : k ≠ "metadata") (h2 : k ≠ "interpretations") (h3 : k ≠ "missing_info")
    (h4 : k ≠ "characters") (h5 : k ≠ "environments") :
    propOf (tailOut fs md1) k = objGet fs k := by
  simp only [tailOut, propOf]
  rw [objGet_objSet_ne _ _ _ _ h5, objGet_objSet_ne _ _ _ _ h4, objGet_objSet_ne _ _ _ _ h3,
    objGet_objSet_ne _ _ _ _ h2, objGet_objSet_ne _ _ _ _ h1]

theorem tailOut_interpretations (fs : List (String × Json)) (md1 : Json) :
    propOf (tailOut fs md1) "interpretations" =
      some (jsOr (objGet fs "interpretations") (.arr [])) := by
  simp only [tailOut, propOf]
  rw [objGet_objSet_ne _ _ _ _ (by decide), objGet_objSet_ne _ _ _ _ (by decide),
    objGet_objSet_ne _ _ _ _ (by decide), objGet_objSet_self,
    objGet_objSet_ne _ _ _ _ (by decide)]

theorem tailOut_missing_info (fs : List (String × Json)) (md1 : Json) :
    propOf (tailOut fs md1) "missing_info" =
      some (jsOr (objGet fs "missing_info") (.arr [])) := by
  simp only [tailOut, propOf]
  rw [objGet_objSet_ne _ _ _ _ (by decide), objGet_objSet_ne _ _ _ _ (by decide),
    objGet_objSet_self, objGet_objSet_ne _ _ _ _ (by decide),
    objGet_objSet_ne _ _ _ _ (by decide)]

theorem tailOut_characters (fs : List (String × Json)) (md1 : Json) :
    propOf (tailOut fs md1) "characters" =
      some (jsOr (objGet fs "characters") (.arr [])) := by
  simp only [tailOut, propOf]
  rw [objGet_objSet_ne _ _ _ _ (by decide), objGet_objSet_self,
    objGet_objSet_ne _ _ _ _ (by decide), objGet_objSet_ne _ _ _ _ (by decide),
    objGet_objSet_ne _ _ _ _ (by decide)]

theorem tailOut_environments (fs : List (String × Json)) (md1 : Json) :
    propOf (tailOut fs md1) "environments" =
      some (jsOr (objGet fs "environments") (.arr [])) := by
  simp only [tailOut, propOf]
  rw [objGet_objSet_self, objGet_objSet_ne _ _ _ _ (by decide),
    objGet_objSet_ne _ _ _ _ (by decide), objGet_objSet_ne _ _ _ _ (by decide),
    objGet_objSet_ne _ _ _ _ (by decide)]

theorem mfsOut_cs (mfs : List (String × Json)) :
    objGet (mfsOut mfs) "confidence_score" =
      (match objGet mfs "confidence_score" with
       | some (.num m e) => some (.num m e)
       | _ => some (.num 8 1)) := by
  rcases hcs : objGet mfs "confidence_score" with _ | v
  · simp [mfsOut, hcs, objGet_objSet_self]
  · cases v <;> simp [mfsOut, hcs, objGet_objSet_self]

theorem mfsOut_ne (mfs : List (String × Json)) (k : String) (h : k ≠ "confidence_score") :
    objGet (mfsOut mfs) k = objGet mfs k := by
  rcases hcs : objGet mfs "confidence_score" with _ | v
  · simp [mfsOut, hcs, objGet_objSet_ne _ _ _ _ h]
  · cases v <;> simp [mfsOut, hcs, objGet_objSet_ne _ _ _ _ h]

theorem missingOf_nil_truthy (fs : List (String × Json)) (h : missingOf fs = [])
    (f : String) (hf : f ∈ requiredFields) : truthyO (objGet fs f) = true := by
  have hall := List.filter_eq_nil_iff.mp h f hf
  simpa using hall

theorem jsSet_ok_truthy (md : Json) (k : String) (v : Json) (md1 : Json)
    (h : jsSet md k v = .ok md1) : truthy md1 = true := by
  cases md <;> simp [jsSet] at h <;> rw [← h] <;> rfl

theorem validate_ok_dissect (arch : Json) (a : Json) (h : validateArchitecture arch = .ok a) :
    ∃ fs ss md1,
      arch = .obj fs ∧ missingOf fs = [] ∧
      objGet fs "shots" = some (.arr ss) ∧ (∀ s ∈ ss, goodShot s = true) ∧
      a = tailOut fs md1 ∧ truthy md1 = true := by
  cases arch with
  | null =>
      simp [validateArchitecture, collectMissing, requiredFields, jsProp, ebind_err] at h
  | bool b =>
      rw [validateArchitecture] at h
      rw [collectMissing_nonobj requiredFields (.bool b) (fun gs hh => by cases hh) rfl,
        ebind_ok] at h
      rw [if_pos (by simp [requiredFields])] at h
      exact Except.noConfusion h
  | num m e =>
      rw [validateArchitecture] at h
      rw [collectMissing_nonobj requiredFields (.num m e) (fun gs hh => by cases hh) rfl,
        ebind_ok] at h
      rw [if_pos (by simp [requiredFields])] at h
      exact Except.noConfusion h
  | str s2 =>
      rw [validateArchitecture] at h
      rw [collectMissing_nonobj requiredFields (.str s2) (fun gs hh => by cases hh) rfl,
        ebind_ok] at h
      rw [if_pos (by simp [requiredFields])] at h
      exact Except.noConfusion h
  | arr xs =>
      rw [validateArchitecture] at h
      rw [collectMissing_nonobj requiredFields (.arr xs) (fun gs hh => by cases hh) rfl,
        ebind_ok] at h
      rw [if_pos (by simp [requiredFields])] at h
      exact Except.noConfusion h
  | obj fs =>
      rw [validateArchitecture, collectMissing_required, ebind_ok] at h
      by_cases hm : missingOf fs = []
      · rw [if_neg (by simp [hm])] at h
        rw [jsProp_obj, ebind_ok] at h
        rcases hs : objGet fs "shots" with _ | v
        · rw [hs] at h; exact Except.noConfusion h
        · rw [hs] at h
          cases v with
          | arr ss =>
              replace h : (checkShots 0 ss >>= fun _ => applyDefaults (Json.obj fs)) = .ok a := h
              rcases hck : checkShots 0 ss with e | u
              · rw [hck, ebind_err] at h; exact Except.noConfusion h
              · cases u
                have hgood := good_of_checkShots_ok ss 0 hck
                rw [hck, ebind_ok] at h
                have hmdt : truthyO (objGet fs "metadata") = true :=
                  missingOf_nil_truthy fs hm "metadata" (by simp [requiredFields])
                rcases hmd : objGet fs "metadata" with _ | md
                · rw [hmd] at hmdt; simp [truthyO] at hmdt
                · rw [hmd] at hmdt
                  have htr : truthy md = true := by simpa [truthyO] using hmdt
                  rw [applyDefaults_unfold fs md hmd (truthy_not_null md htr)] at h
                  rcases hcs : propOf md "confidence_score" with _ | v2
                  · rw [hcs] at h
                    rcases hset : jsSet md "confidence_score" (.num 8 1) with e2 | md1
                    · rw [hset, ebind_err] at h; exact Except.noConfusion h
                    · rw [hset, ebind_ok] at h
                      refine ⟨fs, ss, md1, rfl, hm, hs, hgood, ?_, jsSet_ok_truthy md _ _ md1 hset⟩
                      exact (Except.ok.inj h).symm
                  · rw [hcs] at h
                    cases v2 with
                    | num m2 e2 =>
                        rw [ebind_ok] at h
                        exact ⟨fs, ss, md, rfl, hm, hs, hgood, (Except.ok.inj h).symm, htr⟩
                    | null =>
                        rcases hset : jsSet md "confidence_score" (.num 8 1) with e2 | md1
                        · rw [hset, ebind_err] at h; exact Except.noConfusion h
                        · rw [hset, ebind_ok] at h
                          exact ⟨fs, ss, md1, rfl, hm, hs, hgood, (Except.ok.inj h).symm,
                            jsSet_ok_truthy md _ _ md1 hset⟩
                    | bool b2 =>
                        rcases hset : jsSet md "confidence_score" (.num 8 1) with e2 | md1
                        · rw [hset, ebind_err] at h; exact Except.noConfusion h
                        · rw [hset, ebind_ok] at h
                          exact ⟨fs, ss, md1, rfl, hm, hs, hgood, (Except.ok.inj h).symm,
                            jsSet_ok_truthy md _ _ md1 hset⟩
                    | str s3 =>
                        rcases hset : jsSet md "confidence_score" (.num 8 1) with e2 | md1
                        · rw [hset, ebind_err] at h; exact Except.noConfusion h
                        · rw [hset, ebind_ok] at h
                          exact ⟨fs, ss, md1, rfl, hm, hs, hgood, (Except.ok.inj h).symm,
                            jsSet_ok_truthy md _ _ md1 hset⟩
                    | arr xs2 =>
                        rcases hset : jsSet md "confidence_score" (.num 8 1) with e2 | md1
                        · rw [hset, ebind_err] at h; exact Except.noConfusion h
                        · rw [hset, ebind_ok] at h
                          exact ⟨fs, ss, md1, rfl, hm, hs, hgood, (Except.ok.inj h).symm,
                            jsSet_ok_truthy md _ _ md1 hset⟩
                    | obj gs2 =>
                        rcases hset : jsSet md "confidence_score" (.num 8 1) with e2 | md1
                        · rw [hset, ebind_err] at h; exact Except.noConfusion h
                        · rw [hset, ebind_ok] at h
                          exact ⟨fs, ss, md1, rfl, hm, hs, hgood, (Except.ok.inj h).symm,
                            jsSet_ok_truthy md _ _ md1 hset⟩
          | null => exact Except.noConfusion h
          | bool b2 => exact Except.noConfusion h
          | num m2 e2 => exact Except.noConfusion h
          | str s3 => exact Except.noConfusion h
          | obj gs => exact Except.noConfusion h
      · rw [if_pos hm] at h
        exact Except.noConfusion h

/-! ## Supporting lemmas: the confidence gate -/

theorem selectCritical_nonnull (qs : List Json) (hnn : ∀ q ∈ qs, isNull q = false) :
    selectCritical qs = .ok (qs.filter qKeep) := by
  induction qs with
  | nil => rfl
  | cons q rest ih =>
      have hq : isNull q = false := hnn q (by simp)
      simp only [selectCritical, jsProp_of_not_null q hq, ebind_ok,
        ih (fun x hx => hnn x (by simp [hx]))]
      rcases Bool.eq_false_or_eq_true (qKeep q) with hk | hk
      · have hx : ((match propOf q "criticality" with
            | some (.str s) => s == "high"
            | _ => false) || !truthyO (propOf q "default_used")) = true := hk
        rw [hx, List.filter_cons, hk]
        rfl
      · have hx : ((match propOf q "criticality" with
            | some (.str s) => s == "high"
            | _ => false) || !truthyO (propOf q "default_used")) = false := hk
        rw [hx, List.filter_cons, hk]
        rfl

theorem mapQuestions_nonnull (l : List Json) (hnn : ∀ q ∈ l, isNull q = false) :
    mapQuestions l = .ok (l.map reduceQ) := by
  induction l with
  | nil => rfl
  | cons q rest ih =>
      have hq : isNull q = false := hnn q (by simp)
      simp only [mapQuestions, jsProp_of_not_null q hq, ebind_ok,
        ih (fun x hx => hnn x (by simp [hx])), List.map]
      rfl

theorem selectCaveats_nonnull (l : List Json) (hnn : ∀ q ∈ l, isNull q = false) :
    selectCaveats l = .ok (l.filter iKeep) := by
  induction l with
  | nil => rfl
  | cons q rest ih =>
      have hq : isNull q = false := hnn q (by simp)
      simp only [selectCaveats, jsProp_of_not_null q hq, ebind_ok,
        ih (fun x hx => hnn x (by simp [hx]))]
      rcases Bool.eq_false_or_eq_true (iKeep q) with hk | hk
      · have hx : jsLT (propOf q "confidence") 7 1 = true := hk
        rw [hx, List.filter_cons, hk]
        rfl
      · have hx : jsLT (propOf q "confidence") 7 1 = false := hk
        rw [hx, List.filter_cons, hk]
        rfl

theorem mapCaveats_nonnull (l : List Json) (hnn : ∀ q ∈ l, isNull q = false) :
    mapCaveats l = .ok (l.map reduceC) := by
  induction l with
  | nil => rfl
  | cons q rest ih =>
      have hq : isNull q = false := hnn q (by simp)
      simp only [mapCaveats, jsProp_of_not_null q hq, ebind_ok,
        ih (fun x hx => hnn x (by simp [hx])), List.map]
      rfl

theorem seqShape_jsOr (o : Option Json) (h : seqShape o = true) :
    ∃ xs, jsOr o (.arr []) = .arr xs ∧ ∀ x ∈ xs, isNull x = false := by
  rcases o with _ | v
  · exact ⟨[], rfl, by simp⟩
  · cases v with
    | arr xs =>
        refine ⟨xs, by simp [jsOr, truthy], ?_⟩
        intro x hx
        have hall : xs.all (fun x => !isNull x) = true := by
          simpa [seqShape, truthy] using h
        have hax := List.all_eq_true.mp hall x hx
        simpa using hax
    | null => exact ⟨[], by simp [jsOr, truthy], by simp⟩
    | bool b =>
        cases b
        · exact ⟨[], by simp [jsOr, truthy], by simp⟩
        · exact absurd h (by simp [seqShape, truthy])
    | num m e =>
        by_cases hm : m = 0
        · exact ⟨[], by simp [jsOr, truthy, hm], by simp⟩
        · exact absurd h (by simp [seqShape, truthy, hm])
    | str s2 =>
        by_cases hs : s2 = ""
        · exact ⟨[], by simp [jsOr, truthy, hs], by simp⟩
        · exact absurd h (by simp [seqShape, truthy, hs])
    | obj gs => exact absurd h (by simp [seqShape, truthy])

theorem take_isEmpty (l : List Json) : (l.take 3).isEmpty = l.isEmpty := by
  cases l <;> rfl

theorem gate_low_eq (fs : List (String × Json)) (mfs : List (String × Json))
    (hmd : objGet fs "metadata" = some (.obj mfs))
    (hlow : jsGE (objGet mfs "confidence_score") 7 1 = false) :
    confidenceGate (.obj fs) = gateLow (.obj fs) := by
  simp only [confidenceGate, jsProp_obj, hmd, ebind_ok, Option.getD_some, hlow]
  rfl

theorem gate_complete_of_ge (fs : List (String × Json)) (mfs : List (String × Json))
    (hmd : objGet fs "metadata" = some (.obj mfs))
    (hge : jsGE (objGet mfs "confidence_score") 7 1 = true) :
    confidenceGate (.obj fs) = .ok (.complete (.obj fs)) := by
  simp only [confidenceGate, jsProp_obj, hmd, ebind_ok, Option.getD_some, hge]
  rfl

theorem gateLow_arr (fs : List (String × Json)) (qs : List Json)
    (hmi : objGet fs "missing_info" = some (.arr qs)) :
    gateLow (.obj fs) = gateQuestions (.obj fs) qs := by
  simp only [gateLow, jsProp_obj, hmi, ebind_ok]
  rfl

theorem gateLow_default (fs : List (String × Json))
    (hmi : truthyO (objGet fs "missing_info") = false) :
    gateLow (.obj fs) = gateQuestions (.obj fs) [] := by
  simp only [gateLow, jsProp_obj, ebind_ok]
  rcases ho : objGet fs "missing_info" with _ | v
  · rfl
  · rw [ho] at hmi
    simp only [truthyO] at hmi
    simp only [jsOr, hmi, Bool.false_eq_true, if_false]

theorem gateQuestions_needs (res : Json) (qs : List Json)
    (hnn : ∀ q ∈ qs, isNull q = false)
    (hne : (qs.filter qKeep).isEmpty = false) :
    gateQuestions res qs =
      .ok (.needsClarification res (((qs.filter qKeep).take 3).map reduceQ)) := by
  simp only [gateQuestions, selectCritical_nonnull qs hnn, ebind_ok, take_isEmpty, hne,
    Bool.not_false, if_true]
  have hsub : ∀ x ∈ (qs.filter qKeep).take 3, isNull x = false := fun x hx =>
    hnn x (List.mem_of_mem_filter (List.mem_of_mem_take hx))
  rw [mapQuestions_nonnull _ hsub, ebind_ok]
  rfl

theorem gateQuestions_empty (res : Json) (qs : List Json)
    (hnn : ∀ q ∈ qs, isNull q = false)
    (he : (qs.filter qKeep).isEmpty = true) :
    gateQuestions res qs = gateCaveats res := by
  simp only [gateQuestions, selectCritical_nonnull qs hnn, ebind_ok, take_isEmpty, he,
    Bool.not_true, Bool.false_eq_true, if_false]

theorem gateCaveats_ok (fs : List (String × Json))
    (hin : seqShape (objGet fs "interpretations") = true) :
    ∃ cs, gateCaveats (.obj fs) = .ok (.completeWithCaveats (.obj fs) cs) := by
  obtain ⟨is, hi, hinn⟩ := seqShape_jsOr _ hin
  refine ⟨(is.filter iKeep).map reduceC, ?_⟩
  have h1 : gateCaveats (.obj fs) = (do
      let low ← selectCaveats is
      let caveats ← mapCaveats low
      pure (GateResult.completeWithCaveats (.obj fs) caveats)) := by
    simp only [gateCaveats, jsProp_obj, ebind_ok]
    rw [hi]
  rw [h1, selectCaveats_nonnull is hinn, ebind_ok]
  have hsub : ∀ x ∈ is.filter iKeep, isNull x = false := fun x hx =>
    hinn x (List.mem_of_mem_filter hx)
  rw [mapCaveats_nonnull _ hsub, ebind_ok]
  rfl

theorem gate_total (fs mfs : List (String × Json))
    (hmd : objGet fs "metadata" = some (.obj mfs))
    (hmi : seqShape (objGet fs "missing_info") = true)
    (hin : seqShape (objGet fs "interpretations") = true) :
    isOkE (confidenceGate (.obj fs)) = true := by
  rcases Bool.eq_false_or_eq_true (jsGE (objGet mfs "confidence_score") 7 1) with hge | hge
  case inl =>
    rw [gate_complete_of_ge fs mfs hmd hge]
    rfl
  case inr =>
    rw [gate_low_eq fs mfs hmd hge]
    obtain ⟨qs, hq, hqnn⟩ := seqShape_jsOr _ hmi
    have hql : gateLow (.obj fs) = gateQuestions (.obj fs) qs := by
      simp only [gateLow, jsProp_obj, ebind_ok]
      rw [hq]
    rw [hql]
    rcases Bool.eq_false_or_eq_true (qs.filter qKeep).isEmpty with hsel | hsel
    case inl =>
      rw [gateQuestions_empty _ qs hqnn hsel]
      obtain ⟨cs, hcs⟩ := gateCaveats_ok fs hin
      rw [hcs]
      rfl
    case inr =>
      rw [gateQuestions_needs _ qs hqnn hsel]
      rfl

/-! ## Supporting lemmas: metadata stamping and the pipeline compositions -/

theorem stamp_gen_obj (fs : List (String × Json)) (platform ts : String) :
    stampGenerationMetadata (.obj fs) platform ts =
      .ok (.obj (objSet fs "metadata" (.obj
        (objSet (objSet (objSet (spreadFields (objGet fs "metadata"))
          "schema_version" (.str "1.0.0")) "created_at" (.str ts))
          "platform_target" (.str platform))))) := by
  simp only [stampGenerationMetadata, jsProp_obj, ebind_ok, jsSet]

theorem stamp_ref_obj (gs : List (String × Json)) (fb ts : String) :
    stampRefinementMetadata (.obj gs) fb ts =
      .ok (.obj (objSet gs "metadata" (.obj
        (objSet (objSet (spreadFields (objGet gs "metadata"))
          "updated_at" (.str ts)) "refinement_note" (.str (refinementNote fb)))))) := by
  simp only [stampRefinementMetadata, jsProp_obj, ebind_ok, jsSet]

theorem parseResponse_ok (s : String) (a : Json) (h : parseResponse s = .ok a) :
    ∃ v, jsonParse (cleanResponse s) = some v ∧ validateArchitecture v = .ok a := by
  rw [parseResponse] at h
  rcases hp : jsonParse (cleanResponse s) with _ | v
  · rw [hp] at h; exact Except.noConfusion h
  · rw [hp] at h
    replace h : (match validateArchitecture v with
      | Except.ok a => Except.ok a
      | Except.error _ =>
          (Except.error (EngineError.parseError (jsSubstring (cleanResponse s) 500)) :
            Except EngineError Json)) = Except.ok a := h
    rcases hv : validateArchitecture v with e | a2
    · rw [hv] at h; exact Except.noConfusion h
    · rw [hv] at h
      exact ⟨v, rfl, by rw [hv, Except.ok.inj h]⟩

theorem validate_ok_obj (arch a : Json) (h : validateArchitecture arch = .ok a) :
    ∃ gs, a = .obj gs := by
  obtain ⟨fs, ss, md1, _, _, _, _, ha, _⟩ := validate_ok_dissect arch a h
  exact ⟨_, ha⟩

theorem refinementNote_short (fb : String) (h : fb.data.length ≤ 100) :
    refinementNote fb = fb := by
  have hif : (if 100 < fb.data.length then "..." else "") = "" := by
    rw [if_neg (by omega)]
  rw [refinementNote, hif, jsSubstring, List.take_of_length_le h, string_mk_data]
  have happ : fb ++ "" = String.mk (fb.data ++ []) := by cases fb; rfl
  rw [happ, List.append_nil, string_mk_data]

theorem refinementNote_long (fb : String) (h : 100 < fb.data.length) :
    refinementNote fb = jsSubstring fb 100 ++ "..." := by
  rw [refinementNote, if_pos h]

theorem metaGet_outer (fs g : List (String × Json)) (k : String) :
    metaGet (.obj (objSet fs "metadata" (.obj g))) k = objGet g k := by
  simp only [metaGet, propOf, objGet_objSet_self]

/-! ## Claim theorems -/

/-- C9: for every successful refinement call, the returned architecture's
metadata carries the update timestamp and a refinement note equal to the
first 100 characters of the feedback text, with an ellipsis appended exactly
when the feedback was longer than 100 characters (feedback of length at most
100 is stored whole, with no ellipsis). -/
theorem C9_refinement_stamp (raw fb ts : String) (a : Json)
    (h : refineFromCompletion raw fb ts = .ok a) :
    metaGet a "updated_at" = some (.str ts) ∧
    metaGet a "refinement_note" = some (.str (refinementNote fb)) ∧
    (fb.data.length ≤ 100 → refinementNote fb = fb) ∧
    (100 < fb.data.length → refinementNote fb = jsSubstring fb 100 ++ "...") := by
  rw [refineFromCompletion] at h
  rcases hpr : parseResponse raw with e | r
  · rw [hpr, ebind_err] at h; exact Except.noConfusion h
  · rw [hpr, ebind_ok] at h
    obtain ⟨v, _, hval⟩ := parseResponse_ok raw r hpr
    obtain ⟨gs, hgs⟩ := validate_ok_obj v r hval
    subst hgs
    rw [stamp_ref_obj gs fb ts] at h
    have ha := Except.ok.inj h
    refine ⟨?_, ?_, fun hl => refinementNote_short fb hl, fun hl => refinementNote_long fb hl⟩
    · rw [← ha]
      simp only [metaGet, propOf, objGet_objSet_self]
      rw [objGet_objSet_ne _ _ _ _ (by decide), objGet_objSet_self]
    · rw [← ha]
      simp only [metaGet, propOf, objGet_objSet_self]

/-- C10: for every successful generation call, the returned architecture's
`metadata.schema_version` equals `1.0.0`, `metadata.platform_target` equals
the requested platform option (defaulting to `platform-agnostic` when the
option is unset), and `metadata.created_at` is set to the generation
timestamp — each overriding whatever the completion returned for those three
fields — while every other metadata field of the validated response is left
unchanged. -/
theorem C10_generation_stamp (raw : String) (p : Option String) (ts : String) (a v : Json)
    (mfs : List (String × Json))
    (h : generateFromCompletion raw p ts = .ok a)
    (hv : parseResponse raw = .ok v)
    (hmfs : propOf v "metadata" = some (.obj mfs)) :
    metaGet a "schema_version" = some (.str "1.0.0") ∧
    metaGet a "created_at" = some (.str ts) ∧
    metaGet a "platform_target" = some (.str (p.getD "platform-agnostic")) ∧
    ∀ k, k ≠ "schema_version" → k ≠ "created_at" → k ≠ "platform_target" →
      metaGet a k = objGet mfs k := by
  rw [generateFromCompletion, hv, ebind_ok] at h
  cases v with
  | obj fs =>
      have hmd : objGet fs "metadata" = some (.obj mfs) := hmfs
      rw [stamp_gen_obj fs (p.getD "platform-agnostic") ts] at h
      have ha := Except.ok.inj h
      rw [← ha, hmd]
      simp only [spreadFields]
      refine ⟨?_, ?_, ?_, ?_⟩
      · rw [metaGet_outer, objGet_objSet_ne _ _ _ _ (by decide),
          objGet_objSet_ne _ _ _ _ (by decide), objGet_objSet_self]
      · rw [metaGet_outer, objGet_objSet_ne _ _ _ _ (by decide), objGet_objSet_self]
      · rw [metaGet_outer, objGet_objSet_self]
      · intro k h1 h2 h3
        rw [metaGet_outer, objGet_objSet_ne _ _ _ _ h3, objGet_objSet_ne _ _ _ _ h2,
          objGet_objSet_ne _ _ _ _ h1]
  | null => exact absurd hmfs (by simp [propOf])
  | bool b => exact absurd hmfs (by simp [propOf])
  | num m e => exact absurd hmfs (by simp [propOf])
  | str s2 => exact absurd hmfs (by simp [propOf])
  | arr xs => exact absurd hmfs (by simp [propOf])

/-- C1 (amended): over validated architectures whose `metadata` is a mapping,
the confidence gate returns `complete` whenever the numeric
`confidence_score` is at least 0.70 (`7 * 10 ^ e ≤ m * 10` states
`0.7 ≤ m / 10 ^ e` in exact integer arithmetic), regardless of the contents
of `interpretations` and `missing_info`; and it is total — returning exactly
one of the three statuses — whenever `interpretations` and `missing_info` are
(absent, falsy, or) sequences without `null` entries, as the data model
prescribes. -/
theorem C1_gate_behaviour :
    (∀ (fs mfs : List (String × Json)) (m : Int) (e : Nat),
      objGet fs "metadata" = some (.obj mfs) →
      objGet mfs "confidence_score" = some (.num m e) →
      7 * 10 ^ e ≤ m * 10 →
      confidenceGate (.obj fs) = .ok (.complete (.obj fs))) ∧
    (∀ fs mfs : List (String × Json),
      objGet fs "metadata" = some (.obj mfs) →
      seqShape (objGet fs "missing_info") = true →
      seqShape (objGet fs "interpretations") = true →
      isOkE (confidenceGate (.obj fs)) = true) := by
  constructor
  · intro fs mfs m e hmd hcs hge
    apply gate_complete_of_ge fs mfs hmd
    rw [hcs]
    exact decide_eq_true (by simpa using hge)
  · intro fs mfs hmd hmi hin
    exact gate_total fs mfs hmd hmi hin

/-- C1 (counterexample): a validated architecture (an output of
`validateArchitecture`) with confidence 0.4 and a truthy non-sequence
`missing_info` makes the gate throw `TypeError` (`"oops".filter` is not a
function) instead of returning one of the three statuses — the gate is not
total over validated architectures. -/
theorem C1_counterexample :
    validateArchitecture c1In = .ok c1V ∧ confidenceGate c1V = .error .typeError :=
  ⟨rfl, rfl⟩

/-- Witness for C1 (amended): a 0.9-confidence architecture gates to
`complete`, and a well-shaped 0.4-confidence architecture gates without
throwing. -/
theorem C1_gate_behaviour_witness :
    confidenceGate (.obj c1HighFs) = .ok (.complete (.obj c1HighFs)) ∧
    isOkE (confidenceGate (.obj c2Fs)) = true :=
  ⟨C1_gate_behaviour.1 c1HighFs [("confidence_score", .num 9 1)] 9 1 rfl rfl (by decide),
   C1_gate_behaviour.2 c2Fs [("confidence_score", .num 4 1)] rfl (by decide) (by decide)⟩

/-- C2: when the numeric confidence is below 0.70 (`m * 10 < 7 * 10 ^ e`
states `m / 10 ^ e < 0.7` in exact integer arithmetic) and `missing_info` is
a sequence without `null` entries, the gate selects — preserving original
order — up to 3 entries whose `criticality` equals `high` or whose
`default_used` is falsy, and when that selection is non-empty returns
`needs_clarification` carrying the architecture and the selected questions
reduced to their `question`, `why_it_matters` and `default_used` values. -/
theorem C2_question_selection (fs mfs : List (String × Json)) (m : Int) (e : Nat)
    (qs : List Json)
    (hmd : objGet fs "metadata" = some (.obj mfs))
    (hcs : objGet mfs "confidence_score" = some (.num m e))
    (hlt : m * 10 < 7 * 10 ^ e)
    (hmi : objGet fs "missing_info" = some (.arr qs))
    (hnn : ∀ q ∈ qs, isNull q = false)
    (hne : (qs.filter qKeep).isEmpty = false) :
    confidenceGate (.obj fs) =
      .ok (.needsClarification (.obj fs) (((qs.filter qKeep).take 3).map reduceQ)) := by
  have hlow : jsGE (objGet mfs "confidence_score") 7 1 = false := by
    rw [hcs]
    exact decide_eq_false (by simpa using Int.not_le.mpr hlt)
  rw [gate_low_eq fs mfs hmd hlow, gateLow_arr fs qs hmi, gateQuestions_needs _ qs hnn hne]

/-! ## Supporting lemmas: decimal digit strings -/

theorem digitChar_isDigit (d : Nat) (h : d < 10) : (digitChar d).isDigit = true := by
  interval_cases d <;> decide

theorem digitChar_toNat (d : Nat) (h : d < 10) : (digitChar d).toNat = 48 + d := by
  interval_cases d <;> decide

theorem digitChar_ne_zero (d : Nat) (h1 : 0 < d) (h2 : d < 10) : digitChar d ≠ '0' := by
  interval_cases d <;> decide

theorem digitsVal_append_one (ds : List Char) (c : Char) :
    digitsVal (ds ++ [c]) = digitsVal ds * 10 + (c.toNat - 48) := by
  simp [digitsVal, List.foldl_append]

theorem natToDigitsAux_ne_nil (fuel n : Nat) (h : n < fuel) : natToDigitsAux fuel n ≠ [] := by
  induction fuel generalizing n with
  | zero => omega
  | succ f ih =>
      rw [natToDigitsAux]
      by_cases h10 : n < 10
      · simp [h10]
      · rw [if_neg h10]
        simp

theorem natToDigitsAux_digits (fuel n : Nat) (h : n < fuel) :
    ∀ c ∈ natToDigitsAux fuel n, c.isDigit = true := by
  induction fuel generalizing n with
  | zero => omega
  | succ f ih =>
      intro c hc
      rw [natToDigitsAux] at hc
      by_cases h10 : n < 10
      · rw [if_pos h10] at hc
        simp at hc
        subst hc
        exact digitChar_isDigit n h10
      · rw [if_neg h10] at hc
        rcases List.mem_append.mp hc with h1 | h2
        · have hdiv := Nat.div_lt_self (by omega : 0 < n) (by omega : 1 < 10)
          exact ih (n / 10) (by omega) c h1
        · simp at h2
          subst h2
          exact digitChar_isDigit (n % 10) (Nat.mod_lt n (by omega))

theorem digitsVal_natToDigitsAux (fuel n : Nat) (h : n < fuel) :
    digitsVal (natToDigitsAux fuel n) = n := by
  induction fuel generalizing n with
  | zero => omega
  | succ f ih =>
      rw [natToDigitsAux]
      by_cases h10 : n < 10
      · rw [if_pos h10]
        have hv := digitChar_toNat n h10
        simp [digitsVal, hv]
      · rw [if_neg h10]
        rw [digitsVal_append_one]
        have hdiv := Nat.div_lt_self (by omega : 0 < n) (by omega : 1 < 10)
        rw [ih (n / 10) (by omega)]
        rw [digitChar_toNat (n % 10) (Nat.mod_lt n (by omega))]
        omega

theorem natToDigitsAux_head_ne_zero (fuel n : Nat) (h : n < fuel) (hn : 0 < n) :
    ∀ c, (natToDigitsAux fuel n).head? = some c → c ≠ '0' := by
  induction fuel generalizing n with
  | zero => omega
  | succ f ih =>
      intro c hc
      rw [natToDigitsAux] at hc
      by_cases h10 : n < 10
      · rw [if_pos h10] at hc
        simp at hc
        subst hc
        exact digitChar_ne_zero n hn h10
      · rw [if_neg h10] at hc
        have hdiv := Nat.div_lt_self (by omega : 0 < n) (by omega : 1 < 10)
        have hne := natToDigitsAux_ne_nil f (n / 10) (by omega)
        rcases hl : natToDigitsAux f (n / 10) with _ | ⟨a, t⟩
        · exact absurd hl hne
        · rw [hl] at hc
          simp at hc
          cases hc
          exact ih (n / 10) (by omega) (by omega) c (by rw [hl]; rfl)

theorem natToDigits_ne_nil (n : Nat) : natToDigits n ≠ [] :=
  natToDigitsAux_ne_nil (n + 1) n (by omega)

theorem natToDigits_digits (n : Nat) : ∀ c ∈ natToDigits n, c.isDigit = true :=
  natToDigitsAux_digits (n + 1) n (by omega)

theorem digitsVal_natToDigits (n : Nat) : digitsVal (natToDigits n) = n :=
  digitsVal_natToDigitsAux (n + 1) n (by omega)

theorem natToDigits_head_ne_zero (n : Nat) (hn : 0 < n) :
    ∀ c, (natToDigits n).head? = some c → c ≠ '0' :=
  natToDigitsAux_head_ne_zero (n + 1) n (by omega) hn

theorem digitsVal_replicate_zero (k : Nat) (ds : List Char) :
    digitsVal (List.replicate k '0' ++ ds) = digitsVal ds := by
  induction k with
  | zero => rfl
  | succ j ih =>
      rw [List.replicate_succ, List.cons_append]
      show digitsVal (List.replicate j '0' ++ ds) = digitsVal ds
      exact ih

theorem padDigits_digits (n e : Nat) : ∀ c ∈ padDigits n e, c.isDigit = true := by
  intro c hc
  rcases List.mem_append.mp hc with h1 | h2
  · have := List.eq_of_mem_replicate h1
    subst this
    decide
  · exact natToDigits_digits n c h2

theorem padDigits_length (n e : Nat) : e + 1 ≤ (padDigits n e).length := by
  rw [padDigits]
  simp only [List.length_append, List.length_replicate]
  omega

theorem digitsVal_padDigits (n e : Nat) : digitsVal (padDigits n e) = n := by
  rw [padDigits]
  rw [digitsVal_replicate_zero]
  exact digitsVal_natToDigits n

theorem natToDigits_small (n : Nat) (h : n < 10) : natToDigits n = [digitChar n] := by
  rw [natToDigits, natToDigitsAux, if_pos h]

/-! ## Supporting lemmas: the parser inverts the renderer -/

theorem sepOk_head_not_digit (rest : List Char) (h : sepOk rest) :
    ∀ c, rest.head? = some c → Char.isDigit c = false := by
  intro c hc
  rcases rest with _ | ⟨c2, t⟩
  · exact absurd hc (by simp)
  · simp at hc
    cases hc
    rcases h with h | h | h <;> (subst h; decide)

theorem sepOk_head_not_dot (rest : List Char) (h : sepOk rest) :
    (rest.head? == some '.') = false := by
  rcases rest with _ | ⟨c2, t⟩
  · rfl
  · rcases h with h | h | h <;> (subst h; rfl)

theorem skipWs_cons_nws (c : Char) (t : List Char) (h : isWsChar c = false) :
    skipWs (c :: t) = c :: t := by
  simp [skipWs, List.dropWhile_cons, h]

theorem takeWhile_digits (ds rest : List Char) (hds : ∀ c ∈ ds, Char.isDigit c = true)
    (hr : ∀ c, rest.head? = some c → Char.isDigit c = false) :
    (ds ++ rest).takeWhile Char.isDigit = ds := by
  induction ds with
  | nil =>
      rcases rest with _ | ⟨c, t⟩
      · rfl
      · simp [List.takeWhile_cons, hr c rfl]
  | cons d dt ih =>
      simp only [List.cons_append, List.takeWhile_cons, hds d (by simp), if_true]
      rw [ih (fun c hc => hds c (by simp [hc]))]

theorem isEmpty_false_of_ne_nil (l : List Char) (h : l ≠ []) : l.isEmpty = false := by
  rcases l with _ | ⟨a, t⟩
  · exact absurd rfl h
  · rfl

theorem parsePosNumber_round (n e : Nat) (rest : List Char) (hrest : sepOk rest) :
    parsePosNumber (numBody n e ++ rest) = some (n, e, rest) := by
  have hrd := sepOk_head_not_digit rest hrest
  have hrdot := sepOk_head_not_dot rest hrest
  by_cases he : e = 0
  · subst he
    have h1 : 1 ≤ (natToDigits n).length :=
      List.length_pos.mpr (natToDigits_ne_nil n)
    have hpad : numBody n 0 = natToDigits n := by
      rw [numBody, padDigits]
      simp only [beq_self_eq_true, if_true]
      rw [show 0 + 1 - (natToDigits n).length = 0 from by omega]
      rfl
    rw [hpad]
    have htw := takeWhile_digits (natToDigits n) rest (natToDigits_digits n) hrd
    have hdrop : (natToDigits n ++ rest).drop (natToDigits n).length = rest :=
      List.drop_left _ _
    have hne : (natToDigits n).isEmpty = false :=
      isEmpty_false_of_ne_nil _ (natToDigits_ne_nil n)
    have hlead : (decide (1 < (natToDigits n).length) &&
        ((natToDigits n).head? == some '0')) = false := by
      by_cases hn : n < 10
      · rw [natToDigits_small n hn]
        rfl
      · rcases hl : natToDigits n with _ | ⟨a, t⟩
        · exact absurd hl (natToDigits_ne_nil n)
        · have hz := natToDigits_head_ne_zero n (by omega) a (by rw [hl]; rfl)
          have : (a == '0') = false := by simpa using hz
          simp [this]
    simp only [parsePosNumber, htw, hdrop, hne, hlead, hrdot, Bool.false_eq_true, if_false]
    rw [digitsVal_natToDigits n]
  · have hlenp := padDigits_length n e
    have hbne : (e == 0) = false := by simpa using he
    have hbody : numBody n e =
        (padDigits n e).take ((padDigits n e).length - e) ++
          '.' :: (padDigits n e).drop ((padDigits n e).length - e) := by
      rw [numBody, hbne]
      rfl
    have hiplen : ((padDigits n e).take ((padDigits n e).length - e)).length =
        (padDigits n e).length - e := by
      rw [List.length_take]
      omega
    have hipne : (padDigits n e).take ((padDigits n e).length - e) ≠ [] := by
      intro hx
      have := congrArg List.length hx
      rw [hiplen] at this
      simp at this
      omega
    have hipd : ∀ c ∈ (padDigits n e).take ((padDigits n e).length - e),
        Char.isDigit c = true :=
      fun c hc => padDigits_digits n e c (List.mem_of_mem_take hc)
    have hfpd : ∀ c ∈ (padDigits n e).drop ((padDigits n e).length - e),
        Char.isDigit c = true :=
      fun c hc => padDigits_digits n e c (List.mem_of_mem_drop hc)
    have hfplen : ((padDigits n e).drop ((padDigits n e).length - e)).length = e := by
      rw [List.length_drop]
      omega
    have hfpne : (padDigits n e).drop ((padDigits n e).length - e) ≠ [] := by
      intro hx
      have := congrArg List.length hx
      rw [hfplen] at this
      simp at this
      omega
    rw [hbody]
    rw [List.append_assoc, List.cons_append]
    have htw := takeWhile_digits ((padDigits n e).take ((padDigits n e).length - e))
      ('.' :: ((padDigits n e).drop ((padDigits n e).length - e) ++ rest)) hipd
      (by intro c hc; simp at hc; rw [← hc]; decide)
    have hdrop : (((padDigits n e).take ((padDigits n e).length - e)) ++
        '.' :: ((padDigits n e).drop ((padDigits n e).length - e) ++ rest)).drop
        (((padDigits n e).take ((padDigits n e).length - e)).length) =
        '.' :: ((padDigits n e).drop ((padDigits n e).length - e) ++ rest) :=
      List.drop_left _ _
    have hne2 := isEmpty_false_of_ne_nil _ hipne
    have hlead : (decide (1 < ((padDigits n e).take ((padDigits n e).length - e)).length) &&
        (((padDigits n e).take ((padDigits n e).length - e)).head? == some '0')) = false := by
      by_cases hn : n < 10
      · have hds : (natToDigits n).length = 1 := by rw [natToDigits_small n hn]; rfl
        have hplen : (padDigits n e).length = e + 1 := by
          rw [padDigits]
          simp only [List.length_append, List.length_replicate, hds]
          omega
        rw [hiplen, hplen]
        simp
      · have hds1 : 1 ≤ (natToDigits n).length := List.length_pos.mpr (natToDigits_ne_nil n)
        have hpad2 : padDigits n e =
            List.replicate (e + 1 - (natToDigits n).length) '0' ++ natToDigits n := rfl
        by_cases hcase : (natToDigits n).length ≤ e
        · have hplen : (padDigits n e).length = e + 1 := by
            rw [hpad2]
            simp only [List.length_append, List.length_replicate]
            omega
          rw [hiplen, hplen]
          simp
        · have hrep0 : e + 1 - (natToDigits n).length = 0 := by omega
          have hpad3 : padDigits n e = natToDigits n := by
            rw [hpad2, hrep0]
            rfl
          rcases hl : natToDigits n with _ | ⟨a, t⟩
          · exact absurd hl (natToDigits_ne_nil n)
          · have hz := natToDigits_head_ne_zero n (by omega) a (by rw [hl]; rfl)
            have hz2 : (a == '0') = false := by simpa using hz
            have hhead : ((padDigits n e).take ((padDigits n e).length - e)).head? = some a := by
              rw [hpad3, hl]
              have hlc := congrArg List.length hl
              simp only [List.length_cons] at hlc
              have : (a :: t).length - e = ((a :: t).length - e - 1) + 1 := by
                simp only [List.length_cons]
                omega
              rw [this]
              rfl
            rw [hhead]
            simp [hz2]
    have htw2 := takeWhile_digits ((padDigits n e).drop ((padDigits n e).length - e)) rest
      hfpd hrd
    have hdrop2 : (((padDigits n e).drop ((padDigits n e).length - e)) ++ rest).drop
        (((padDigits n e).drop ((padDigits n e).length - e)).length) = rest :=
      List.drop_left _ _
    have hne3 := isEmpty_false_of_ne_nil _ hfpne
    simp only [parsePosNumber, htw, hdrop, hne2, hlead, Bool.false_eq_true, if_false,
      List.head?_cons, Option.some.injEq, beq_self_eq_true, if_true, List.tail_cons,
      htw2, hdrop2, hne3]
    rw [List.take_append_drop, digitsVal_padDigits, hfplen]

theorem numBody_head (n e : Nat) :
    ∃ c t, numBody n e = c :: t ∧ Char.isDigit c = true := by
  by_cases he : e = 0
  · subst he
    have h1 : 1 ≤ (natToDigits n).length := List.length_pos.mpr (natToDigits_ne_nil n)
    have hpad : numBody n 0 = natToDigits n := by
      rw [numBody, padDigits]
      simp only [beq_self_eq_true, if_true]
      rw [show 0 + 1 - (natToDigits n).length = 0 from by omega]
      rfl
    rcases hl : natToDigits n with _ | ⟨a, t⟩
    · exact absurd hl (natToDigits_ne_nil n)
    · exact ⟨a, t, by rw [hpad, hl], natToDigits_digits n a (by rw [hl]; simp)⟩
  · have hbne : (e == 0) = false := by simpa using he
    have hlenp := padDigits_length n e
    have hiplen : ((padDigits n e).take ((padDigits n e).length - e)).length =
        (padDigits n e).length - e := by
      rw [List.length_take]
      omega
    rcases hl : (padDigits n e).take ((padDigits n e).length - e) with _ | ⟨a, t⟩
    · exfalso
      have := congrArg List.length hl
      rw [hiplen] at this
      simp at this
      omega
    · refine ⟨a, t ++ '.' :: (padDigits n e).drop ((padDigits n e).length - e), ?_, ?_⟩
      · rw [numBody, hbne]
        show (padDigits n e).take ((padDigits n e).length - e) ++
          '.' :: (padDigits n e).drop ((padDigits n e).length - e) = _
        rw [hl]
        rfl
      · exact padDigits_digits n e a (List.mem_of_mem_take (by rw [hl]; simp))

theorem parseNumber_round (m : Int) (e : Nat) (rest : List Char) (hrest : sepOk rest) :
    parseNumber (renderNum m e ++ rest) = some (.num m e, rest) := by
  obtain ⟨c, t, hb, hcd⟩ := numBody_head m.natAbs e
  by_cases hm : m < 0
  · rw [renderNum, if_pos hm]
    rw [List.cons_append]
    have hh : (('-' :: (numBody m.natAbs e ++ rest)).head? == some '-') = true := rfl
    simp only [parseNumber, hh, if_true, List.tail_cons]
    rw [parsePosNumber_round m.natAbs e rest hrest]
    simp only [Option.map_some']
    have : -(m.natAbs : Int) = m := by omega
    rw [this]
  · rw [renderNum, if_neg hm]
    have hcne : (c == '-') = false := by
      by_cases hx : c = '-'
      · subst hx
        exact absurd hcd (by decide)
      · simpa using hx
    have hh : ((numBody m.natAbs e ++ rest).head? == some '-') = false := by
      rw [hb, List.cons_append]
      simpa using hcne
    simp only [parseNumber, hh, Bool.false_eq_true, if_false]
    rw [parsePosNumber_round m.natAbs e rest hrest]
    simp only [Option.map_some']
    have : (m.natAbs : Int) = m := by omega
    rw [this]

theorem parseStringBody_cons_other (c : Char) (rest : List Char)
    (h1 : c ≠ '"') (h2 : c ≠ '\\') :
    parseStringBody (c :: rest) =
      (parseStringBody rest).bind (fun p => some (c :: p.1, p.2)) := by
  conv_lhs => rw [parseStringBody.eq_def]
  split
  · simp_all
  · simp_all
  · simp_all
  · simp_all
  · rename_i x3 cc rr x2 x1 x0 heq
    injection heq with hc hr
    subst hc
    subst hr
    rfl

theorem parseStringBody_round (s rest : List Char) :
    parseStringBody (escapeChars s ++ '"' :: rest) = some (s, rest) := by
  induction s with
  | nil => rfl
  | cons c cs ih =>
    by_cases hq : c = '"'
    · subst hq
      show parseStringBody ('\\' :: '"' :: (escapeChars cs ++ '"' :: rest)) = _
      rw [show parseStringBody ('\\' :: '"' :: (escapeChars cs ++ '"' :: rest)) =
        (parseStringBody (escapeChars cs ++ '"' :: rest)).bind
          (fun p => some ('"' :: p.1, p.2)) from rfl]
      rw [ih]
      rfl
    · by_cases hb : c = '\\'
      · subst hb
        show parseStringBody ('\\' :: '\\' :: (escapeChars cs ++ '"' :: rest)) = _
        rw [show parseStringBody ('\\' :: '\\' :: (escapeChars cs ++ '"' :: rest)) =
          (parseStringBody (escapeChars cs ++ '"' :: rest)).bind
            (fun p => some ('\\' :: p.1, p.2)) from rfl]
        rw [ih]
        rfl
      · have hesc : escapeChars (c :: cs) ++ '"' :: rest =
            c :: (escapeChars cs ++ '"' :: rest) := by
          have h1 : (c == '"') = false := by simpa using hq
          have h2 : (c == '\\') = false := by simpa using hb
          simp [escapeChars, h1, h2]
        rw [hesc, parseStringBody_cons_other c _ hq hb, ih]
        rfl

theorem eta_string (s : String) : String.mk s.data = s := rfl

theorem char_ne_of_digit (c : Char) (h : Char.isDigit c = true) (d : Char)
    (hd : Char.isDigit d = false) : c ≠ d := by
  intro hx
  subst hx
  simp [h] at hd

theorem beq_false_of_ne (a b : Char) (h : a ≠ b) : (a == b) = false := by
  simpa using h

theorem isWsChar_false_of_digit (c : Char) (h : Char.isDigit c = true) :
    isWsChar c = false := by
  rw [isWsChar]
  rw [beq_false_of_ne c ' ' (char_ne_of_digit c h ' ' (by decide))]
  rw [beq_false_of_ne c '\n' (char_ne_of_digit c h '\n' (by decide))]
  rw [beq_false_of_ne c '\t' (char_ne_of_digit c h '\t' (by decide))]
  rw [beq_false_of_ne c '\r' (char_ne_of_digit c h '\r' (by decide))]
  rfl

/-- The first character of a rendered value is never whitespace, a closing
bracket, a closing brace, or a comma. -/
theorem render_head (v : Json) : ∃ c t, render v = c :: t ∧ isWsChar c = false ∧
    (c == ']') = false ∧ (c == '}') = false ∧ (c == ',') = false := by
  cases v with
  | null => exact ⟨'n', _, rfl, rfl, rfl, rfl, rfl⟩
  | bool b =>
      cases b
      · exact ⟨'f', _, rfl, rfl, rfl, rfl, rfl⟩
      · exact ⟨'t', _, rfl, rfl, rfl, rfl, rfl⟩
  | num m e =>
      obtain ⟨c, t, hbd, hcd⟩ := numBody_head m.natAbs e
      by_cases hm : m < 0
      · refine ⟨'-', numBody m.natAbs e, ?_, rfl, rfl, rfl, rfl⟩
        show renderNum m e = _
        rw [renderNum, if_pos hm]
      · refine ⟨c, t, ?_, isWsChar_false_of_digit c hcd,
          beq_false_of_ne c ']' (char_ne_of_digit c hcd ']' (by decide)),
          beq_false_of_ne c '}' (char_ne_of_digit c hcd '}' (by decide)),
          beq_false_of_ne c ',' (char_ne_of_digit c hcd ',' (by decide))⟩
        show renderNum m e = _
        rw [renderNum, if_neg hm, hbd]
  | str s => exact ⟨'"', _, rfl, rfl, rfl, rfl, rfl⟩
  | arr xs => exact ⟨'[', _, rfl, rfl, rfl, rfl, rfl⟩
  | obj fs => exact ⟨'{', _, rfl, rfl, rfl, rfl, rfl⟩

theorem render_length_pos (v : Json) : 1 ≤ (render v).length := by
  obtain ⟨c, t, h, -⟩ := render_head v
  rw [h]
  simp

theorem renderList_eq_append (x : Json) (xs : List Json) :
    ∃ t2, renderList (x :: xs) = render x ++ t2 := by
  cases xs with
  | nil => exact ⟨[], by rw [renderList, List.append_nil]⟩
  | cons y ys => exact ⟨_, rfl⟩

theorem renderMembers_cons_head (f : String × Json) (fs : List (String × Json)) :
    ∃ t, renderMembers (f :: fs) = '"' :: t := by
  rcases f with ⟨k, v⟩
  cases fs with
  | nil => exact ⟨_, rfl⟩
  | cons g gs => exact ⟨_, rfl⟩

theorem isPrefixOf_cons_ne (a : Char) (as : List Char) (b : Char) (bs : List Char)
    (h : a ≠ b) : (a :: as).isPrefixOf (b :: bs) = false := by
  simp [List.isPrefixOf, h]

theorem parseVal_null (f : Nat) (rest : List Char) :
    parseVal (f + 1) (render .null ++ rest) = some (.null, rest) := by
  rw [show render Json.null ++ rest = 'n' :: 'u' :: 'l' :: 'l' :: rest from rfl]
  simp only [parseVal]
  rw [skipWs_cons_nws 'n' _ rfl]
  rw [show (['n','u','l','l'].isPrefixOf ('n' :: 'u' :: 'l' :: 'l' :: rest)) = true from by
    simp [List.isPrefixOf]]
  simp

theorem parseVal_true (f : Nat) (rest : List Char) :
    parseVal (f + 1) (render (.bool true) ++ rest) = some (.bool true, rest) := by
  rw [show render (Json.bool true) ++ rest = 't' :: 'r' :: 'u' :: 'e' :: rest from rfl]
  simp only [parseVal]
  rw [skipWs_cons_nws 't' _ rfl]
  rw [show (['n','u','l','l'].isPrefixOf ('t' :: 'r' :: 'u' :: 'e' :: rest)) = false from rfl]
  rw [show (['t','r','u','e'].isPrefixOf ('t' :: 'r' :: 'u' :: 'e' :: rest)) = true from by
    simp [List.isPrefixOf]]
  simp

theorem parseVal_false (f : Nat) (rest : List Char) :
    parseVal (f + 1) (render (.bool false) ++ rest) = some (.bool false, rest) := by
  rw [show render (Json.bool false) ++ rest = 'f' :: 'a' :: 'l' :: 's' :: 'e' :: rest from rfl]
  simp only [parseVal]
  rw [skipWs_cons_nws 'f' _ rfl]
  rw [show (['n','u','l','l'].isPrefixOf ('f' :: 'a' :: 'l' :: 's' :: 'e' :: rest)) = false from
    rfl]
  rw [show (['t','r','u','e'].isPrefixOf ('f' :: 'a' :: 'l' :: 's' :: 'e' :: rest)) = false from
    rfl]
  rw [show (['f','a','l','s','e'].isPrefixOf ('f' :: 'a' :: 'l' :: 's' :: 'e' :: rest)) = true from
    by simp [List.isPrefixOf]]
  simp

theorem parseVal_str (f : Nat) (s : String) (rest : List Char) :
    parseVal (f + 1) (render (.str s) ++ rest) = some (.str s, rest) := by
  have h : render (.str s) ++ rest = '"' :: (escapeChars s.data ++ '"' :: rest) := by
    show (('"' :: escapeChars s.data) ++ ['"']) ++ rest = _
    rw [List.append_assoc, List.cons_append]
    rfl
  rw [h]
  show (parseStringBody (escapeChars s.data ++ '"' :: rest)).map
      (fun p => (Json.str (String.mk p.1), p.2)) = _
  rw [parseStringBody_round]
  rfl

theorem parseVal_eq_parseNumber (f : Nat) (c : Char) (t : List Char)
    (hws : isWsChar c = false) (hn : c ≠ 'n') (ht : c ≠ 't') (hf : c ≠ 'f')
    (hq : (c == '"') = false) (hbk : (c == '[') = false) (hbr : (c == '{') = false) :
    parseVal (f + 1) (c :: t) = parseNumber (c :: t) := by
  simp only [parseVal]
  rw [skipWs_cons_nws c t hws]
  rw [isPrefixOf_cons_ne 'n' _ c t (Ne.symm hn)]
  rw [isPrefixOf_cons_ne 't' _ c t (Ne.symm ht)]
  rw [isPrefixOf_cons_ne 'f' _ c t (Ne.symm hf)]
  rw [show ((c :: t).head? == some '"') = (c == '"') from rfl, hq]
  rw [show ((c :: t).head? == some '[') = (c == '[') from rfl, hbk]
  rw [show ((c :: t).head? == some '{') = (c == '{') from rfl, hbr]
  simp only [Bool.false_eq_true, if_false]

theorem parseVal_num (f : Nat) (m : Int) (e : Nat) (rest : List Char)
    (hsep : sepOk rest) :
    parseVal (f + 1) (render (.num m e) ++ rest) = some (.num m e, rest) := by
  obtain ⟨c, t, hct, hws, h1, h2, h3⟩ := render_head (.num m e)
  have hcd : c = '-' ∨ Char.isDigit c = true := by
    have hct2 : renderNum m e = c :: t := hct
    by_cases hm : m < 0
    · rw [renderNum, if_pos hm] at hct2
      injection hct2 with hc ht2
      exact Or.inl hc.symm
    · obtain ⟨c2, t2, hb2, hd2⟩ := numBody_head m.natAbs e
      rw [renderNum, if_neg hm, hb2] at hct2
      injection hct2 with hc ht2
      exact Or.inr (hc ▸ hd2)
  have hne : ∀ d : Char, Char.isDigit d = false → d ≠ '-' → c ≠ d := by
    intro d hd hdm hx
    rcases hcd with h | h
    · exact hdm (hx ▸ h)
    · exact char_ne_of_digit c h d hd (by exact hx)
  rw [hct, List.cons_append]
  rw [parseVal_eq_parseNumber f c (t ++ rest)
    (by rcases hcd with h | h
        · subst h; rfl
        · exact isWsChar_false_of_digit c h)
    (hne 'n' (by decide) (by decide)) (hne 't' (by decide) (by decide))
    (hne 'f' (by decide) (by decide))
    (beq_false_of_ne c '"' (hne '"' (by decide) (by decide)))
    (beq_false_of_ne c '[' (hne '[' (by decide) (by decide)))
    (beq_false_of_ne c '{' (hne '{' (by decide) (by decide)))]
  rw [← List.cons_append, ← hct]
  exact parseNumber_round m e rest hsep

theorem parseVal_arr_nil (f : Nat) (rest : List Char) :
    parseVal (f + 1) (render (.arr []) ++ rest) = some (.arr [], rest) := by
  rw [show render (Json.arr []) ++ rest = '[' :: ']' :: rest from rfl]
  simp only [parseVal]
  rw [skipWs_cons_nws '[' _ rfl]
  rw [show (['n','u','l','l'].isPrefixOf ('[' :: ']' :: rest)) = false from rfl]
  rw [show (['t','r','u','e'].isPrefixOf ('[' :: ']' :: rest)) = false from rfl]
  rw [show (['f','a','l','s','e'].isPrefixOf ('[' :: ']' :: rest)) = false from rfl]
  rw [show ((('[' : Char) :: ']' :: rest).head? == some '"') = false from rfl]
  rw [show ((('[' : Char) :: ']' :: rest).head? == some '[') = true from rfl]
  rw [show List.tail (('[' : Char) :: ']' :: rest) = ']' :: rest from rfl]
  rw [skipWs_cons_nws ']' _ rfl]
  simp

theorem parseVal_obj_nil (f : Nat) (rest : List Char) :
    parseVal (f + 1) (render (.obj []) ++ rest) = some (.obj [], rest) := by
  rw [show render (Json.obj []) ++ rest = '{' :: '}' :: rest from rfl]
  simp only [parseVal]
  rw [skipWs_cons_nws '{' _ rfl]
  rw [show (['n','u','l','l'].isPrefixOf ('{' :: '}' :: rest)) = false from rfl]
  rw [show (['t','r','u','e'].isPrefixOf ('{' :: '}' :: rest)) = false from rfl]
  rw [show (['f','a','l','s','e'].isPrefixOf ('{' :: '}' :: rest)) = false from rfl]
  rw [show ((('{' : Char) :: '}' :: rest).head? == some '"') = false from rfl]
  rw [show ((('{' : Char) :: '}' :: rest).head? == some '[') = false from rfl]
  rw [show ((('{' : Char) :: '}' :: rest).head? == some '{') = true from rfl]
  rw [show List.tail (('{' : Char) :: '}' :: rest) = '}' :: rest from rfl]
  rw [skipWs_cons_nws '}' _ rfl]
  simp

theorem parseVal_arr_cons (f : Nat) (x : Json) (xs2 : List Json) (rest : List Char)
    (hE : parseElems f (renderList (x :: xs2) ++ ']' :: rest) = some (x :: xs2, rest)) :
    parseVal (f + 1) (render (.arr (x :: xs2)) ++ rest) =
      some (.arr (x :: xs2), rest) := by
  have hsh : render (.arr (x :: xs2)) ++ rest =
      '[' :: (renderList (x :: xs2) ++ ']' :: rest) := by
    show (('[' :: renderList (x :: xs2)) ++ [']']) ++ rest = _
    rw [List.append_assoc, List.cons_append]
    rfl
  obtain ⟨t2, ht2⟩ := renderList_eq_append x xs2
  obtain ⟨c, tc, hc, hwsc, hc1, hc2, hc3⟩ := render_head x
  have hshape : renderList (x :: xs2) ++ ']' :: rest =
      c :: (tc ++ (t2 ++ ']' :: rest)) := by
    rw [ht2, hc]
    simp [List.append_assoc]
  rw [hsh]
  simp only [parseVal]
  rw [skipWs_cons_nws '[' _ rfl]
  rw [show (['n','u','l','l'].isPrefixOf
      ('[' :: (renderList (x :: xs2) ++ ']' :: rest))) = false from rfl]
  rw [show (['t','r','u','e'].isPrefixOf
      ('[' :: (renderList (x :: xs2) ++ ']' :: rest))) = false from rfl]
  rw [show (['f','a','l','s','e'].isPrefixOf
      ('[' :: (renderList (x :: xs2) ++ ']' :: rest))) = false from rfl]
  rw [show ((('[' : Char) :: (renderList (x :: xs2) ++ ']' :: rest)).head? ==
      some '"') = false from rfl]
  rw [show ((('[' : Char) :: (renderList (x :: xs2) ++ ']' :: rest)).head? ==
      some '[') = true from rfl]
  rw [show List.tail (('[' : Char) :: (renderList (x :: xs2) ++ ']' :: rest)) =
      renderList (x :: xs2) ++ ']' :: rest from rfl]
  rw [hshape, skipWs_cons_nws c _ hwsc]
  rw [show ((c :: (tc ++ (t2 ++ ']' :: rest))).head? == some ']') = (c == ']') from rfl, hc1]
  rw [← hshape, hE]
  simp

theorem parseVal_obj_cons (f : Nat) (p : String × Json) (fs : List (String × Json))
    (rest : List Char)
    (hM : parseMembers f (renderMembers (p :: fs) ++ '}' :: rest) = some (p :: fs, rest)) :
    parseVal (f + 1) (render (.obj (p :: fs)) ++ rest) =
      some (.obj (p :: fs), rest) := by
  have hsh : render (.obj (p :: fs)) ++ rest =
      '{' :: (renderMembers (p :: fs) ++ '}' :: rest) := by
    show (('{' :: renderMembers (p :: fs)) ++ ['}']) ++ rest = _
    rw [List.append_assoc, List.cons_append]
    rfl
  obtain ⟨tm, htm⟩ := renderMembers_cons_head p fs
  have hshape : renderMembers (p :: fs) ++ '}' :: rest = '"' :: (tm ++ '}' :: rest) := by
    rw [htm]
    rfl
  rw [hsh]
  simp only [parseVal]
  rw [skipWs_cons_nws '{' _ rfl]
  rw [show (['n','u','l','l'].isPrefixOf
      ('{' :: (renderMembers (p :: fs) ++ '}' :: rest))) = false from rfl]
  rw [show (['t','r','u','e'].isPrefixOf
      ('{' :: (renderMembers (p :: fs) ++ '}' :: rest))) = false from rfl]
  rw [show (['f','a','l','s','e'].isPrefixOf
      ('{' :: (renderMembers (p :: fs) ++ '}' :: rest))) = false from rfl]
  rw [show ((('{' : Char) :: (renderMembers (p :: fs) ++ '}' :: rest)).head? ==
      some '"') = false from rfl]
  rw [show ((('{' : Char) :: (renderMembers (p :: fs) ++ '}' :: rest)).head? ==
      some '[') = false from rfl]
  rw [show ((('{' : Char) :: (renderMembers (p :: fs) ++ '}' :: rest)).head? ==
      some '{') = true from rfl]
  rw [show List.tail (('{' : Char) :: (renderMembers (p :: fs) ++ '}' :: rest)) =
      renderMembers (p :: fs) ++ '}' :: rest from rfl]
  rw [hshape, skipWs_cons_nws '"' _ rfl]
  rw [show ((('"' : Char) :: (tm ++ '}' :: rest)).head? == some '}') = false from rfl]
  rw [← hshape, hM]
  simp

theorem parseElems_last (f : Nat) (x : Json) (rest : List Char)
    (hV : parseVal f (render x ++ ']' :: rest) = some (x, ']' :: rest)) :
    parseElems (f + 1) (renderList [x] ++ ']' :: rest) = some ([x], rest) := by
  rw [show renderList [x] = render x from rfl]
  simp only [parseElems]
  rw [hV]
  rfl

theorem parseElems_more (f : Nat) (x y : Json) (ys : List Json) (rest : List Char)
    (hV : parseVal f (render x ++ ',' :: (renderList (y :: ys) ++ ']' :: rest)) =
          some (x, ',' :: (renderList (y :: ys) ++ ']' :: rest)))
    (hE : parseElems f (renderList (y :: ys) ++ ']' :: rest) = some (y :: ys, rest)) :
    parseElems (f + 1) (renderList (x :: y :: ys) ++ ']' :: rest) =
      some (x :: y :: ys, rest) := by
  have hsh : renderList (x :: y :: ys) ++ ']' :: rest =
      render x ++ ',' :: (renderList (y :: ys) ++ ']' :: rest) := by
    show (render x ++ ',' :: renderList (y :: ys)) ++ ']' :: rest = _
    rw [List.append_assoc]
    rfl
  rw [hsh]
  simp only [parseElems]
  rw [hV]
  have h2 : (parseElems f (renderList (y :: ys) ++ ']' :: rest)).bind
      (fun q => some (x :: q.1, q.2)) = some (x :: y :: ys, rest) := by
    rw [hE]
    rfl
  exact h2

theorem parseMembers_last (f : Nat) (k : String) (v : Json) (rest : List Char)
    (hV : parseVal f (render v ++ '}' :: rest) = some (v, '}' :: rest)) :
    parseMembers (f + 1) (renderMembers [(k, v)] ++ '}' :: rest) =
      some ([(k, v)], rest) := by
  have hsh : renderMembers [(k, v)] ++ '}' :: rest =
      '"' :: (escapeChars k.data ++ '"' :: ':' :: (render v ++ '}' :: rest)) := by
    show (('"' :: escapeChars k.data) ++ ('"' :: ':' :: render v)) ++ '}' :: rest = _
    simp [List.append_assoc]
  rw [hsh]
  simp only [parseMembers]
  have h1 : (parseStringBody (escapeChars k.data ++ '"' :: ':' ::
      (render v ++ '}' :: rest))).bind
      (fun p => if ((skipWs p.2).head? == some ':') = true then
          (parseVal f (skipWs p.2).tail).bind (fun q =>
            if ((skipWs q.2).head? == some ',') = true then
              (parseMembers f (skipWs q.2).tail).bind
                (fun w => some ((String.mk p.1, q.1) :: w.1, w.2))
            else if ((skipWs q.2).head? == some '}') = true then
              some ([(String.mk p.1, q.1)], (skipWs q.2).tail)
            else none)
        else none) = some ([(k, v)], rest) := by
    rw [parseStringBody_round k.data (':' :: (render v ++ '}' :: rest))]
    have h2 : (parseVal f (render v ++ '}' :: rest)).bind (fun q =>
        if ((skipWs q.2).head? == some ',') = true then
          (parseMembers f (skipWs q.2).tail).bind
            (fun w => some ((k, q.1) :: w.1, w.2))
        else if ((skipWs q.2).head? == some '}') = true then
          some ([(k, q.1)], (skipWs q.2).tail)
        else none) = some ([(k, v)], rest) := by
      rw [hV]
      rfl
    exact h2
  exact h1

theorem parseMembers_more (f : Nat) (k : String) (v : Json) (g : String × Json)
    (gs : List (String × Json)) (rest : List Char)
    (hV : parseVal f (render v ++ ',' :: (renderMembers (g :: gs) ++ '}' :: rest)) =
          some (v, ',' :: (renderMembers (g :: gs) ++ '}' :: rest)))
    (hM : parseMembers f (renderMembers (g :: gs) ++ '}' :: rest) = some (g :: gs, rest)) :
    parseMembers (f + 1) (renderMembers ((k, v) :: g :: gs) ++ '}' :: rest) =
      some ((k, v) :: g :: gs, rest) := by
  have hsh : renderMembers ((k, v) :: g :: gs) ++ '}' :: rest =
      '"' :: (escapeChars k.data ++ '"' :: ':' ::
        (render v ++ ',' :: (renderMembers (g :: gs) ++ '}' :: rest))) := by
    show ((('"' :: escapeChars k.data) ++ ('"' :: ':' :: render v)) ++
      ',' :: renderMembers (g :: gs)) ++ '}' :: rest = _
    simp [List.append_assoc]
  rw [hsh]
  simp only [parseMembers]
  have h1 : (parseStringBody (escapeChars k.data ++ '"' :: ':' ::
      (render v ++ ',' :: (renderMembers (g :: gs) ++ '}' :: rest)))).bind
      (fun p => if ((skipWs p.2).head? == some ':') = true then
          (parseVal f (skipWs p.2).tail).bind (fun q =>
            if ((skipWs q.2).head? == some ',') = true then
              (parseMembers f (skipWs q.2).tail).bind
                (fun w => some ((String.mk p.1, q.1) :: w.1, w.2))
            else if ((skipWs q.2).head? == some '}') = true then
              some ([(String.mk p.1, q.1)], (skipWs q.2).tail)
            else none)
        else none) = some ((k, v) :: g :: gs, rest) := by
    rw [parseStringBody_round k.data
      (':' :: (render v ++ ',' :: (renderMembers (g :: gs) ++ '}' :: rest)))]
    have h2 : (parseVal f (render v ++ ',' ::
        (renderMembers (g :: gs) ++ '}' :: rest))).bind (fun q =>
        if ((skipWs q.2).head? == some ',') = true then
          (parseMembers f (skipWs q.2).tail).bind
            (fun w => some ((k, q.1) :: w.1, w.2))
        else if ((skipWs q.2).head? == some '}') = true then
          some ([(k, q.1)], (skipWs q.2).tail)
        else none) = some ((k, v) :: g :: gs, rest) := by
      rw [hV]
      have h3 : (parseMembers f (renderMembers (g :: gs) ++ '}' :: rest)).bind
          (fun w => some ((k, v) :: w.1, w.2)) = some ((k, v) :: g :: gs, rest) := by
        rw [hM]
        rfl
      exact h3
    exact h2
  exact h1

/-- The parser inverts the renderer, mutually over values, array elements and
object members, by induction on the fuel. -/
theorem parse_render_all (fuel : Nat) :
    (∀ v rest, sepOk rest → (render v).length ≤ fuel →
       parseVal fuel (render v ++ rest) = some (v, rest)) ∧
    (∀ l rest, l ≠ [] → (renderList l).length + 1 ≤ fuel →
       parseElems fuel (renderList l ++ ']' :: rest) = some (l, rest)) ∧
    (∀ l rest, l ≠ [] → (renderMembers l).length + 1 ≤ fuel →
       parseMembers fuel (renderMembers l ++ '}' :: rest) = some (l, rest)) := by
  induction fuel with
  | zero =>
      refine ⟨?_, ?_, ?_⟩
      · intro v rest hsep hlen
        have := render_length_pos v
        omega
      · intro l rest hne hlen
        omega
      · intro l rest hne hlen
        omega
  | succ f ih =>
      obtain ⟨ihV, ihL, ihM⟩ := ih
      refine ⟨?_, ?_, ?_⟩
      · intro v rest hsep hlen
        cases v with
        | null => exact parseVal_null f rest
        | bool b =>
            cases b
            · exact parseVal_false f rest
            · exact parseVal_true f rest
        | num m e => exact parseVal_num f m e rest hsep
        | str s => exact parseVal_str f s rest
        | arr xs =>
            cases xs with
            | nil => exact parseVal_arr_nil f rest
            | cons x xs2 =>
                have hl2 : (render (.arr (x :: xs2))).length =
                    (renderList (x :: xs2)).length + 2 := by
                  rw [show render (.arr (x :: xs2)) =
                    ('[' :: renderList (x :: xs2)) ++ [']'] from rfl]
                  simp
                exact parseVal_arr_cons f x xs2 rest
                  (ihL (x :: xs2) rest (by simp) (by omega))
        | obj fs =>
            cases fs with
            | nil => exact parseVal_obj_nil f rest
            | cons p fs2 =>
                obtain ⟨k, v⟩ := p
                have hl2 : (render (.obj ((k, v) :: fs2))).length =
                    (renderMembers ((k, v) :: fs2)).length + 2 := by
                  rw [show render (.obj ((k, v) :: fs2)) =
                    ('{' :: renderMembers ((k, v) :: fs2)) ++ ['}'] from rfl]
                  simp
                exact parseVal_obj_cons f (k, v) fs2 rest
                  (ihM ((k, v) :: fs2) rest (by simp) (by omega))
      · intro l rest hne hlen
        cases l with
        | nil => exact absurd rfl hne
        | cons x xs =>
            cases xs with
            | nil =>
                have hl2 : renderList [x] = render x := rfl
                exact parseElems_last f x rest
                  (ihV x (']' :: rest) (Or.inr (Or.inl rfl)) (by rw [hl2] at hlen; omega))
            | cons y ys =>
                have hl2 : (renderList (x :: y :: ys)).length =
                    (render x).length + 1 + (renderList (y :: ys)).length := by
                  rw [show renderList (x :: y :: ys) =
                    render x ++ ',' :: renderList (y :: ys) from rfl]
                  simp
                  omega
                have hx1 := render_length_pos x
                exact parseElems_more f x y ys rest
                  (ihV x (',' :: (renderList (y :: ys) ++ ']' :: rest))
                    (Or.inl rfl) (by omega))
                  (ihL (y :: ys) rest (by simp) (by omega))
      · intro l rest hne hlen
        cases l with
        | nil => exact absurd rfl hne
        | cons p fs =>
            obtain ⟨k, v⟩ := p
            cases fs with
            | nil =>
                have hl2 : (renderMembers [(k, v)]).length =
                    (escapeChars k.data).length + (render v).length + 3 := by
                  rw [show renderMembers [(k, v)] =
                    ('"' :: escapeChars k.data) ++ ('"' :: ':' :: render v) from rfl]
                  simp
                  omega
                exact parseMembers_last f k v rest
                  (ihV v ('}' :: rest) (Or.inr (Or.inr rfl)) (by omega))
            | cons g gs =>
                have hl2 : (renderMembers ((k, v) :: g :: gs)).length =
                    (escapeChars k.data).length + (render v).length + 4 +
                      (renderMembers (g :: gs)).length := by
                  rw [show renderMembers ((k, v) :: g :: gs) =
                    (('"' :: escapeChars k.data) ++ ('"' :: ':' :: render v)) ++
                      ',' :: renderMembers (g :: gs) from rfl]
                  simp
                  omega
                exact parseMembers_more f k v g gs rest
                  (ihV v (',' :: (renderMembers (g :: gs) ++ '}' :: rest))
                    (Or.inl rfl) (by omega))
                  (ihM (g :: gs) rest (by simp) (by omega))

/-- `JSON.parse` inverts the model of `JSON.stringify` on every value. -/
theorem jsonParse_render (v : Json) : jsonParse (renderString v) = some v := by
  have hPV := (parse_render_all ((render v).length + 1)).1 v [] trivial (by omega)
  rw [List.append_nil] at hPV
  rw [jsonParse]
  rw [show (renderString v).data = render v from rfl]
  rw [hPV]
  rfl

theorem getLast?_mem_self (l : List Char) (c : Char) (h : l.getLast? = some c) : c ∈ l := by
  obtain ⟨hne, hx⟩ := List.mem_getLast?_eq_getLast (show c ∈ l.getLast? from h)
  rw [hx]
  exact List.getLast_mem hne

theorem isPrefixOf_mono (p q x : List Char) (hpq : p.isPrefixOf q = true)
    (h : q.isPrefixOf x = true) : p.isPrefixOf x = true := by
  rw [List.isPrefixOf_iff_prefix] at hpq h ⊢
  exact hpq.trans h

theorem hasSub_mono (p q : List Char) (hpq : p.isPrefixOf q = true) (hq : q ≠ []) :
    ∀ l, hasSub q l = true → hasSub p l = true := by
  intro l
  induction l with
  | nil =>
      intro h
      rw [show hasSub q [] = q.isEmpty from rfl, isEmpty_false_of_ne_nil q hq] at h
      exact absurd h (by simp)
  | cons c cs ih =>
      intro h
      rw [show hasSub q (c :: cs) = (q.isPrefixOf (c :: cs) || hasSub q cs) from rfl] at h
      rw [show hasSub p (c :: cs) = (p.isPrefixOf (c :: cs) || hasSub p cs) from rfl]
      rcases Bool.or_eq_true_iff.mp h with hx | hx
      · rw [isPrefixOf_mono p q _ hpq hx]
        rfl
      · rw [ih hx]
        simp

theorem stripFences_no_fence (s : String) (h : hasSub ("```".data) s.data = false) :
    stripFences s = s := by
  have hj : hasSub ("```json".data) s.data = false := by
    by_cases hx : hasSub ("```json".data) s.data = true
    · rw [hasSub_mono ("```".data) ("```json".data) (by decide) (by decide) s.data hx] at h
      exact absurd h (by simp)
    · simpa using hx
  rw [stripFences, hj, h]
  rfl

theorem trimChars_eq_self (cs : List Char) (c1 : Char) (t : List Char)
    (hcons : cs = c1 :: t) (h1 : isWsChar c1 = false)
    (c2 : Char) (h2 : cs.getLast? = some c2) (h3 : isWsChar c2 = false) :
    trimChars cs = cs := by
  have hdw : cs.dropWhile isWsChar = cs := by
    rw [hcons, List.dropWhile_cons, h1]
    simp
  rw [trimChars, hdw]
  rcases hrev : cs.reverse with _ | ⟨d, t2⟩
  · have hnil : cs = [] := by
      have := congrArg List.reverse hrev
      rwa [List.reverse_reverse] at this
    rw [hnil] at h2
    exact absurd h2 (by simp)
  · have hd : d = c2 := by
      have hh := List.head?_reverse cs
      rw [hrev, h2] at hh
      simpa using hh
    have hdw2 : List.dropWhile isWsChar (d :: t2) = d :: t2 := by
      rw [List.dropWhile_cons, hd, h3]
      simp
    rw [hdw2, ← hrev, List.reverse_reverse]

theorem numBody_last (n e : Nat) :
    ∃ c, (numBody n e).getLast? = some c ∧ Char.isDigit c = true := by
  by_cases he : e = 0
  · subst he
    have hpad : numBody n 0 = natToDigits n := by
      rw [numBody, padDigits]
      simp only [beq_self_eq_true, if_true]
      rw [show 0 + 1 - (natToDigits n).length = 0 from by
        have : 1 ≤ (natToDigits n).length := List.length_pos.mpr (natToDigits_ne_nil n)
        omega]
      rfl
    rcases hl : (natToDigits n).getLast? with _ | c
    · rw [List.getLast?_eq_none_iff] at hl
      exact absurd hl (natToDigits_ne_nil n)
    · exact ⟨c, by rw [hpad, hl], natToDigits_digits n c (getLast?_mem_self _ _ hl)⟩
  · have hlenp := padDigits_length n e
    have hbne : (e == 0) = false := by simpa using he
    have hbody : numBody n e =
        (padDigits n e).take ((padDigits n e).length - e) ++
          '.' :: (padDigits n e).drop ((padDigits n e).length - e) := by
      rw [numBody, hbne]
      rfl
    have hfplen : ((padDigits n e).drop ((padDigits n e).length - e)).length = e := by
      rw [List.length_drop]
      omega
    have hfpne : (padDigits n e).drop ((padDigits n e).length - e) ≠ [] := by
      intro hx
      have := congrArg List.length hx
      rw [hfplen] at this
      simp at this
      omega
    rcases hl : ((padDigits n e).drop ((padDigits n e).length - e)).getLast? with _ | c
    · rw [List.getLast?_eq_none_iff] at hl
      exact absurd hl hfpne
    · refine ⟨c, ?_, padDigits_digits n e c (List.mem_of_mem_drop (getLast?_mem_self _ _ hl))⟩
      rw [hbody, List.getLast?_append_of_ne_nil _ (by simp)]
      rw [show ('.' :: (padDigits n e).drop ((padDigits n e).length - e)) =
        ['.'] ++ (padDigits n e).drop ((padDigits n e).length - e) from rfl]
      rw [List.getLast?_append_of_ne_nil _ hfpne]
      exact hl

/-- The last character of a rendered value is never whitespace. -/
theorem render_last (v : Json) :
    ∃ c, (render v).getLast? = some c ∧ isWsChar c = false := by
  cases v with
  | null => exact ⟨'l', rfl, rfl⟩
  | bool b =>
      cases b
      · exact ⟨'e', rfl, rfl⟩
      · exact ⟨'e', rfl, rfl⟩
  | num m e =>
      obtain ⟨c, hc, hd⟩ := numBody_last m.natAbs e
      have hnb : numBody m.natAbs e ≠ [] := by
        intro hx
        rw [hx] at hc
        exact absurd hc (by simp)
      refine ⟨c, ?_, isWsChar_false_of_digit c hd⟩
      rw [show render (.num m e) = renderNum m e from rfl, renderNum]
      by_cases hm : m < 0
      · rw [if_pos hm]
        rw [show ('-' :: numBody m.natAbs e) = ['-'] ++ numBody m.natAbs e from rfl]
        rw [List.getLast?_append_of_ne_nil _ hnb]
        exact hc
      · rw [if_neg hm]
        exact hc
  | str s =>
      refine ⟨'"', ?_, rfl⟩
      rw [show render (.str s) = ('"' :: escapeChars s.data) ++ ['"'] from rfl]
      rw [List.getLast?_append_of_ne_nil _ (by simp)]
      rfl
  | arr xs =>
      refine ⟨']', ?_, rfl⟩
      rw [show render (.arr xs) = ('[' :: renderList xs) ++ [']'] from rfl]
      rw [List.getLast?_append_of_ne_nil _ (by simp)]
      rfl
  | obj fs =>
      refine ⟨'}', ?_, rfl⟩
      rw [show render (.obj fs) = ('{' :: renderMembers fs) ++ ['}'] from rfl]
      rw [List.getLast?_append_of_ne_nil _ (by simp)]
      rfl

/-- Rendered output that contains no fence delimiter is untouched by the
cleaning step. -/
theorem cleanResponse_render (a : Json)
    (h3 : hasSub ("```".data) (renderString a).data = false) :
    cleanResponse (renderString a) = renderString a := by
  rw [cleanResponse, stripFences_no_fence _ h3]
  obtain ⟨c1, t, hct, hws1, -, -, -⟩ := render_head a
  obtain ⟨c2, hc2, hws2⟩ := render_last a
  rw [show (renderString a).data = render a from rfl]
  rw [trimChars_eq_self (render a) c1 t hct hws1 c2 hc2 hws2]
  rfl

/-- C5: the response extractor strips the ```json fence markers and the bare
``` markers (each with one directly following newline), trims surrounding
whitespace, and strictly parses the remainder; for every raw text whose
cleaned form does not parse as JSON it fails with a parse error carrying the
first 500 characters of the cleaned text.  Amended from the specification,
which says markers with any language tag are removed: only the `json` tag is
stripped, so a block fenced with another tag keeps the tag in the cleaned
text. -/
theorem C5_extraction_failure (s : String)
    (h : jsonParse (cleanResponse s) = none) :
    extractJson s = .error (.parseError (jsSubstring (cleanResponse s) 500)) := by
  simp only [extractJson, h]

/-- Witness for C5 at a concrete input: a non-JSON text fails with the error
carrying the cleaned text. -/
theorem C5_extraction_failure_witness :
    jsonParse (cleanResponse "not json") = none ∧
    extractJson "not json" = .error (.parseError "not json") := by
  refine ⟨rfl, ?_⟩
  rw [C5_extraction_failure "not json" rfl]
  rfl

/-- C5 counterexample to the specification's wording: a block fenced with the
`javascript` language tag is not fully cleaned (the tag survives, so the parse
fails with the tag in the excerpt), while the cleaning described by the
specification would strip it and the parse would succeed. -/
theorem C5_counterexample :
    extractJson "```javascript\n\x7b\x7d\n```" =
      .error (.parseError "javascript\n\x7b\x7d") ∧
    jsonParse (specCleanResponse "```javascript\n\x7b\x7d\n```") = some (.obj []) :=
  ⟨rfl, rfl⟩

/-- C6: extraction is idempotent on already-clean JSON text provided the
re-serialized value is also fence-free: if the text contains no ``` delimiter
and extracts to a value, and the serialization of that value contains no ```
delimiter either, then re-extracting the serialization returns the identical
value.  Amended from the specification, which states idempotence without the
proviso on the serialized form. -/
theorem C6_idempotence (s : String) (a : Json)
    (_h1 : hasSub ("```".data) s.data = false)
    (_h2 : extractJson s = .ok a)
    (h3 : hasSub ("```".data) (renderString a).data = false) :
    extractJson (renderString a) = .ok a := by
  simp only [extractJson]
  rw [cleanResponse_render a h3, jsonParse_render a]

/-- Witness for C6 at a concrete input: a fence-free object literal extracts
to itself again after serialization. -/
theorem C6_idempotence_witness :
    hasSub ("```".data) ("\x7b\"a\":1\x7d".data) = false ∧
    extractJson "\x7b\"a\":1\x7d" = .ok (.obj [("a", .num 1 0)]) ∧
    hasSub ("```".data) (renderString (.obj [("a", .num 1 0)])).data = false ∧
    extractJson (renderString (.obj [("a", .num 1 0)])) = .ok (.obj [("a", .num 1 0)]) :=
  ⟨by decide, rfl, by decide,
    C6_idempotence "\x7b\"a\":1\x7d" (.obj [("a", .num 1 0)]) (by decide) rfl (by decide)⟩

/-- C6 counterexample to the unconditional idempotence claim: the JSON text
consisting of a string literal written with three ` escapes contains no
fence marker and parses to a string of three backticks, but its serialization
contains a bare fence that the second extraction strips, so re-extraction
returns the empty string instead. -/
theorem C6_counterexample :
    extractJson "\"\\u0060\\u0060\\u0060\"" = .ok (.str "```") ∧
    extractJson (renderString (.str "```")) = .ok (.str "") ∧
    Json.str "```" ≠ Json.str "" :=
  ⟨rfl, rfl, by
    intro hx
    injection hx with h
    exact absurd h (by decide)⟩

theorem hasSub_iff_infix (pat : List Char) : ∀ l, hasSub pat l = true ↔ pat <:+: l := by
  intro l
  induction l with
  | nil =>
      rw [show hasSub pat [] = pat.isEmpty from rfl, List.infix_nil]
      cases pat
      · simp
      · simp
  | cons c cs ih =>
      rw [show hasSub pat (c :: cs) = (pat.isPrefixOf (c :: cs) || hasSub pat cs) from rfl]
      rw [List.infix_cons_iff, Bool.or_eq_true_iff, List.isPrefixOf_iff_prefix, ih]

theorem hasSub_false_iff (pat l : List Char) : hasSub pat l = false ↔ ¬ pat <:+: l := by
  rw [← hasSub_iff_infix]
  cases h : hasSub pat l <;> simp

theorem hasSub_mono_infix (pat l l' : List Char) (hsub : l' <:+: l)
    (h : hasSub pat l = false) : hasSub pat l' = false := by
  rw [hasSub_false_iff] at h ⊢
  exact fun hx => h (hx.trans hsub)

theorem hasSub_no_char (pat l : List Char) (c : Char) (hc : c ∈ pat) (hnc : c ∉ l) :
    hasSub pat l = false := by
  rw [hasSub_false_iff]
  intro hx
  exact hnc (hx.subset hc)

theorem isPrefixOf_append_sep (d : Char) :
    ∀ (pat : List Char), d ∉ pat → ∀ x b, pat.isPrefixOf x = false →
      pat.isPrefixOf (x ++ d :: b) = false := by
  intro pat
  induction pat with
  | nil =>
      intro _ x b hx
      simp [List.isPrefixOf] at hx
  | cons p ps ih =>
      intro hd x b hx
      cases x with
      | nil =>
          have hpd : (p == d) = false := by
            have hne : p ≠ d := fun h => hd (h ▸ List.mem_cons_self p ps)
            simpa using hne
          rw [List.nil_append]
          rw [show (p :: ps).isPrefixOf (d :: b) = ((p == d) && ps.isPrefixOf b) from rfl]
          rw [hpd]
          rfl
      | cons c cs =>
          rw [show ((c :: cs) ++ d :: b) = c :: (cs ++ d :: b) from rfl]
          rw [show (p :: ps).isPrefixOf (c :: (cs ++ d :: b)) =
            ((p == c) && ps.isPrefixOf (cs ++ d :: b)) from rfl]
          rw [show (p :: ps).isPrefixOf (c :: cs) =
            ((p == c) && ps.isPrefixOf cs) from rfl] at hx
          cases hpc : (p == c) with
          | false => rfl
          | true =>
              rw [hpc] at hx
              rw [Bool.true_and] at hx
              rw [Bool.true_and]
              exact ih (fun hm => hd (List.mem_cons_of_mem p hm)) cs b hx

theorem hasSub_append_cons (pat : List Char) (hpne : pat ≠ []) (d : Char) (hd : d ∉ pat) :
    ∀ a b, hasSub pat a = false → hasSub pat b = false →
      hasSub pat (a ++ d :: b) = false := by
  intro a
  induction a with
  | nil =>
      intro b _ hB
      rw [List.nil_append]
      rw [show hasSub pat (d :: b) = (pat.isPrefixOf (d :: b) || hasSub pat b) from rfl]
      rcases hp : pat with _ | ⟨p, ps⟩
      · exact absurd hp hpne
      · have hpd : (p == d) = false := by
          have hne : p ≠ d := fun h => hd (by rw [hp]; exact h ▸ List.mem_cons_self p ps)
          simpa using hne
        rw [show (p :: ps).isPrefixOf (d :: b) = ((p == d) && ps.isPrefixOf b) from rfl]
        rw [hpd, ← hp, hB]
        rfl
  | cons c cs ih =>
      intro b hA hB
      have hA2 := hA
      rw [show hasSub pat (c :: cs) = (pat.isPrefixOf (c :: cs) || hasSub pat cs) from rfl]
        at hA2
      obtain ⟨h1, h2⟩ := Bool.or_eq_false_iff.mp hA2
      rw [show ((c :: cs) ++ d :: b) = c :: (cs ++ d :: b) from rfl]
      rw [show hasSub pat (c :: (cs ++ d :: b)) =
        (pat.isPrefixOf (c :: (cs ++ d :: b)) || hasSub pat (cs ++ d :: b)) from rfl]
      rw [show (c :: (cs ++ d :: b)) = ((c :: cs) ++ d :: b) from rfl]
      rw [isPrefixOf_append_sep d pat hd (c :: cs) b h1]
      rw [ih b h2 hB]
      rfl

/-- No occurrence of `pat` can straddle an append boundary guarded by a
character outside `pat`. -/
theorem hasSub_append_junction (pat : List Char) (hpne : pat ≠ []) (a b : List Char)
    (hA : hasSub pat a = false) (hB : hasSub pat b = false)
    (hj : (∃ d, a.getLast? = some d ∧ d ∉ pat) ∨ (∃ d, b.head? = some d ∧ d ∉ pat)) :
    hasSub pat (a ++ b) = false := by
  rcases hj with ⟨d, hdl, hd⟩ | ⟨d, hdh, hd⟩
  · have hane : a ≠ [] := by
      intro h
      rw [h] at hdl
      exact absurd hdl (by simp)
    have hlast : a.getLast hane = d := by
      have heq := List.getLast?_eq_getLast_of_ne_nil hane
      rw [heq] at hdl
      exact Option.some.inj hdl
    have hsplit : a = a.dropLast ++ [d] := by
      conv_lhs => rw [← List.dropLast_append_getLast hane]
      rw [hlast]
    rw [hsplit, List.append_assoc]
    rw [show ([d] ++ b) = d :: b from rfl]
    refine hasSub_append_cons pat hpne d hd a.dropLast b ?_ hB
    exact hasSub_mono_infix pat a _ (List.dropLast_prefix a).isInfix hA
  · rcases b with _ | ⟨b0, bt⟩
    · rw [List.append_nil]
      exact hA
    · have hb0 : b0 = d := by simpa using hdh
      subst hb0
      have hBt : hasSub pat bt = false := by
        have hB2 := hB
        rw [show hasSub pat (b0 :: bt) =
          (pat.isPrefixOf (b0 :: bt) || hasSub pat bt) from rfl] at hB2
        exact (Bool.or_eq_false_iff.mp hB2).2
      exact hasSub_append_cons pat hpne b0 hd a bt hA hBt

theorem tok_lower (pat : List Char) (hpat : isTok pat) : ∀ c ∈ pat, c.isLower = true := by
  rcases hpat with h | h <;> (subst h; decide)

theorem tok_ne_nil (pat : List Char) (hpat : isTok pat) : pat ≠ [] := by
  rcases hpat with h | h <;> (subst h; decide)

theorem tok_notMem (pat : List Char) (hpat : isTok pat) (d : Char)
    (hd : d.isLower = false) : d ∉ pat := by
  intro hm
  rw [tok_lower pat hpat d hm] at hd
  exact absurd hd (by simp)

theorem strClean_false (pat : List Char) (s : String) (h : strClean pat s = true) :
    hasSub pat s.data = false := by
  rw [strClean, Bool.not_eq_eq_eq_not] at h
  exact h

theorem hasSub_empty_str (pat : List Char) (hpat : isTok pat) :
    hasSub pat ("".data) = false := by
  rw [show hasSub pat ("".data) = pat.isEmpty from rfl]
  exact isEmpty_false_of_ne_nil pat (tok_ne_nil pat hpat)

theorem natStr_clean (pat : List Char) (hpat : isTok pat) (n : Nat) :
    hasSub pat (natStr n).data = false := by
  refine hasSub_no_char pat _ 'u' ?_ ?_
  · rcases hpat with h | h <;> (subst h; decide)
  · intro hm
    have hd := natToDigits_digits n 'u' hm
    exact absurd hd (by decide)

theorem joinSep_clean (pat : List Char) (hpat : isTok pat) (sep : String)
    (hs : hasSub pat sep.data = false)
    (hhead : ∃ d, sep.data.head? = some d ∧ d ∉ pat)
    (hlast : ∃ d, sep.data.getLast? = some d ∧ d ∉ pat) :
    ∀ items, (∀ s ∈ items, hasSub pat s.data = false) →
      hasSub pat (joinSep sep items).data = false := by
  intro items
  induction items with
  | nil =>
      intro _
      exact hasSub_empty_str pat hpat
  | cons x xs ih =>
      intro hitems
      cases xs with
      | nil => exact hitems x (by simp)
      | cons y ys =>
          rw [show joinSep sep (x :: y :: ys) = x ++ sep ++ joinSep sep (y :: ys) from rfl]
          rw [String.data_append, String.data_append]
          have hsepne : sep.data ≠ [] := by
            obtain ⟨d, hd1, -⟩ := hlast
            intro hx
            rw [hx] at hd1
            exact absurd hd1 (by simp)
          refine hasSub_append_junction pat (tok_ne_nil pat hpat) _ _ ?_ ?_ ?_
          · refine hasSub_append_junction pat (tok_ne_nil pat hpat) _ _
              (hitems x (by simp)) hs (Or.inr hhead)
          · exact ih (fun s hs2 => hitems s (by simp [hs2]))
          · obtain ⟨d, hd1, hd2⟩ := hlast
            exact Or.inl ⟨d, by rw [List.getLast?_append_of_ne_nil _ hsepne]; exact hd1, hd2⟩

theorem numberItems_clean (pat : List Char) (hpat : isTok pat) :
    ∀ (items : List String) (i : Nat),
      (∀ s ∈ items, hasSub pat s.data = false) →
      ∀ s ∈ numberItems i items, hasSub pat s.data = false := by
  intro items
  induction items with
  | nil =>
      intro i _ s hs
      exact absurd hs (by simp [numberItems])
  | cons x xs ih =>
      intro i hitems s hs
      rw [show numberItems i (x :: xs) =
        (natStr (i + 1) ++ ". " ++ x) :: numberItems (i + 1) xs from rfl] at hs
      rcases List.mem_cons.mp hs with hx | hx
      · subst hx
        rw [String.data_append, String.data_append]
        refine hasSub_append_junction pat (tok_ne_nil pat hpat) _ _ ?_
          (hitems x (by simp)) ?_
        · refine hasSub_append_junction pat (tok_ne_nil pat hpat) _ _
            (natStr_clean pat hpat (i + 1))
            (by rcases hpat with h | h <;> (subst h; decide))
            (Or.inr ⟨'.', rfl, tok_notMem pat hpat '.' (by decide)⟩)
        · refine Or.inl ⟨' ', ?_, tok_notMem pat hpat ' ' (by decide)⟩
          rw [List.getLast?_append_of_ne_nil _ (show (". ").data ≠ [] by decide)]
          rfl
      · exact ih (i + 1) (fun t ht => hitems t (by simp [ht])) s hx

theorem refLine_clean (pat : List Char) (hpat : isTok pat) (r : RefItem)
    (hd : hasSub pat r.description.data = false)
    (hu : ∀ u, r.url = some u → hasSub pat u.data = false) :
    hasSub pat (refLine r).data = false := by
  rw [refLine]
  rcases hurl : r.url with _ | u
  · rw [String.data_append]
    rw [show ("" : String).data = [] from rfl, List.append_nil]
    exact hd
  · rw [show (match some u with
        | some u => if (u == "") = true then ("" : String) else " (" ++ u ++ ")"
        | none => "") = if (u == "") = true then ("" : String) else " (" ++ u ++ ")" from
      rfl]
    by_cases hue : u == ""
    · rw [String.data_append, if_pos hue]
      rw [show ("" : String).data = [] from rfl, List.append_nil]
      exact hd
    · rw [String.data_append, if_neg hue]
      refine hasSub_append_junction pat (tok_ne_nil pat hpat) _ _ hd ?_
        (Or.inr ⟨' ', ?_, tok_notMem pat hpat ' ' (by decide)⟩)
      · rw [String.data_append, String.data_append]
        refine hasSub_append_junction pat (tok_ne_nil pat hpat) _ _ ?_
          (by rcases hpat with h | h <;> (subst h; decide))
          (Or.inr ⟨')', rfl, tok_notMem pat hpat ')' (by decide)⟩)
        refine hasSub_append_junction pat (tok_ne_nil pat hpat) _ _
          (by rcases hpat with h | h <;> (subst h; decide))
          (hu u hurl)
          (Or.inl ⟨'(', rfl, tok_notMem pat hpat '(' (by decide)⟩)
      · rw [String.data_append, String.data_append]
        rfl

theorem formatStructuredInput_clean (pat : List Char) (hpat : isTok pat)
    (f : StructuredFields) (hf : fieldsClean pat f = true) :
    hasSub pat (formatStructuredInput f).data = false := by
  simp only [fieldsClean, Bool.and_eq_true] at hf
  obtain ⟨⟨⟨⟨⟨⟨hc, ht⟩, hn⟩, hch⟩, hsh⟩, hst⟩, hco⟩ := hf
  simp only [formatStructuredInput]
  refine joinSep_clean pat hpat "\n\n"
    (by rcases hpat with h | h <;> (subst h; decide))
    ⟨'\n', rfl, tok_notMem pat hpat '\n' (by decide)⟩
    ⟨'\n', by decide, tok_notMem pat hpat '\n' (by decide)⟩ _ ?_
  intro s hs
  simp only [List.mem_append] at hs
  rcases hs with ((((((hs | hs) | hs) | hs) | hs) | hs) | hs)
  · rcases hcc : f.concept with _ | c
    · rw [hcc] at hs
      exact absurd hs (by simp)
    · rw [hcc] at hs
      rw [show (match some c with
          | some c => if (c == "") = true then ([] : List String) else ["Concept: " ++ c]
          | none => []) =
        if (c == "") = true then ([] : List String) else ["Concept: " ++ c] from rfl] at hs
      by_cases hce : c == ""
      · rw [if_pos hce] at hs
        exact absurd hs (by simp)
      · rw [if_neg hce] at hs
        have hseq : s = "Concept: " ++ c := by simpa using hs
        subst hseq
        rw [String.data_append]
        refine hasSub_append_junction pat (tok_ne_nil pat hpat) _ _
          (by rcases hpat with h | h <;> (subst h; decide)) ?_
          (Or.inl ⟨' ', by decide, tok_notMem pat hpat ' ' (by decide)⟩)
        rw [hcc] at hc
        exact strClean_false pat c hc
  · rcases htt : f.tone with _ | tv
    · rw [htt] at hs
      exact absurd hs (by simp)
    · rw [htt] at ht hs
      cases tv with
      | one t =>
          rw [show (match some (ToneInput.one t) with
              | some (.one t) => if (t == "") = true then ([] : List String)
                  else ["Tone: " ++ t]
              | some (.many ts) => ["Tone: " ++ joinSep ", " ts]
              | none => []) =
            if (t == "") = true then ([] : List String) else ["Tone: " ++ t] from rfl] at hs
          by_cases hte : t == ""
          · rw [if_pos hte] at hs
            exact absurd hs (by simp)
          · rw [if_neg hte] at hs
            have hseq : s = "Tone: " ++ t := by simpa using hs
            subst hseq
            rw [String.data_append]
            refine hasSub_append_junction pat (tok_ne_nil pat hpat) _ _
              (by rcases hpat with h | h <;> (subst h; decide))
              (strClean_false pat t ht)
              (Or.inl ⟨' ', by decide, tok_notMem pat hpat ' ' (by decide)⟩)
      | many ts =>
          have hseq : s = "Tone: " ++ joinSep ", " ts := by simpa using hs
          subst hseq
          rw [String.data_append]
          refine hasSub_append_junction pat (tok_ne_nil pat hpat) _ _
            (by rcases hpat with h | h <;> (subst h; decide)) ?_
            (Or.inl ⟨' ', by decide, tok_notMem pat hpat ' ' (by decide)⟩)
          refine joinSep_clean pat hpat ", "
            (by rcases hpat with h | h <;> (subst h; decide))
            ⟨',', rfl, tok_notMem pat hpat ',' (by decide)⟩
            ⟨' ', by decide, tok_notMem pat hpat ' ' (by decide)⟩ ts ?_
          intro t2 ht2
          exact strClean_false pat t2 (List.all_eq_true.mp ht t2 ht2)
  · rcases hnn : f.narrative with _ | n
    · rw [hnn] at hs
      exact absurd hs (by simp)
    · rw [hnn] at hs
      rw [show (match some n with
          | some n => if (n == "") = true then ([] : List String) else ["Narrative: " ++ n]
          | none => []) =
        if (n == "") = true then ([] : List String) else ["Narrative: " ++ n] from rfl] at hs
      by_cases hne : n == ""
      · rw [if_pos hne] at hs
        exact absurd hs (by simp)
      · rw [if_neg hne] at hs
        have hseq : s = "Narrative: " ++ n := by simpa using hs
        subst hseq
        rw [String.data_append]
        refine hasSub_append_junction pat (tok_ne_nil pat hpat) _ _
          (by rcases hpat with h | h <;> (subst h; decide)) ?_
          (Or.inl ⟨' ', by decide, tok_notMem pat hpat ' ' (by decide)⟩)
        rw [hnn] at hn
        exact strClean_false pat n hn
  · rcases hcs : f.characters with _ | cs
    · rw [hcs] at hs
      exact absurd hs (by simp)
    · rw [hcs] at hch hs
      have hseq : s = "Characters:\n" ++ joinSep "\n"
          (cs.map (fun c => "- " ++ c.name ++ ": " ++ c.description)) := by simpa using hs
      subst hseq
      rw [String.data_append]
      refine hasSub_append_junction pat (tok_ne_nil pat hpat) _ _
        (by rcases hpat with h | h <;> (subst h; decide)) ?_
        (Or.inl ⟨'\n', by decide, tok_notMem pat hpat '\n' (by decide)⟩)
      refine joinSep_clean pat hpat "\n"
        (by rcases hpat with h | h <;> (subst h; decide))
        ⟨'\n', rfl, tok_notMem pat hpat '\n' (by decide)⟩
        ⟨'\n', rfl, tok_notMem pat hpat '\n' (by decide)⟩ _ ?_
      intro s2 hs2
      obtain ⟨c, hcmem, hceq⟩ := List.mem_map.mp hs2
      subst hceq
      have hcln := List.all_eq_true.mp hch c hcmem
      rw [Bool.and_eq_true] at hcln
      rw [String.data_append, String.data_append]
      refine hasSub_append_junction pat (tok_ne_nil pat hpat) _ _ ?_
        (strClean_false pat c.description hcln.2) ?_
      · refine hasSub_append_junction pat (tok_ne_nil pat hpat) _ _ ?_
          (by rcases hpat with h | h <;> (subst h; decide))
          (Or.inr ⟨':', rfl, tok_notMem pat hpat ':' (by decide)⟩)
        refine hasSub_append_junction pat (tok_ne_nil pat hpat) _ _
          (by rcases hpat with h | h <;> (subst h; decide))
          (strClean_false pat c.name hcln.1)
          (Or.inl ⟨' ', by decide, tok_notMem pat hpat ' ' (by decide)⟩)
      · refine Or.inl ⟨' ', ?_, tok_notMem pat hpat ' ' (by decide)⟩
        rw [List.getLast?_append_of_ne_nil _ (show (": ").data ≠ [] by decide)]
        decide
  · rcases hss : f.shots with _ | ss
    · rw [hss] at hs
      exact absurd hs (by simp)
    · rw [hss] at hsh hs
      have hseq : s = "Shot ideas:\n" ++ joinSep "\n" (numberItems 0 ss) := by simpa using hs
      subst hseq
      rw [String.data_append]
      refine hasSub_append_junction pat (tok_ne_nil pat hpat) _ _
        (by rcases hpat with h | h <;> (subst h; decide)) ?_
        (Or.inl ⟨'\n', by decide, tok_notMem pat hpat '\n' (by decide)⟩)
      refine joinSep_clean pat hpat "\n"
        (by rcases hpat with h | h <;> (subst h; decide))
        ⟨'\n', rfl, tok_notMem pat hpat '\n' (by decide)⟩
        ⟨'\n', rfl, tok_notMem pat hpat '\n' (by decide)⟩ _ ?_
      refine numberItems_clean pat hpat ss 0 ?_
      intro s2 hs2
      exact strClean_false pat s2 (List.all_eq_true.mp hsh s2 hs2)
  · rcases hstt : f.style with _ | st
    · rw [hstt] at hs
      exact absurd hs (by simp)
    · rw [hstt] at hs
      rw [show (match some st with
          | some st => if (st == "") = true then ([] : List String)
              else ["Style notes: " ++ st]
          | none => []) =
        if (st == "") = true then ([] : List String) else ["Style notes: " ++ st] from
        rfl] at hs
      by_cases hste : st == ""
      · rw [if_pos hste] at hs
        exact absurd hs (by simp)
      · rw [if_neg hste] at hs
        have hseq : s = "Style notes: " ++ st := by simpa using hs
        subst hseq
        rw [String.data_append]
        refine hasSub_append_junction pat (tok_ne_nil pat hpat) _ _
          (by rcases hpat with h | h <;> (subst h; decide)) ?_
          (Or.inl ⟨' ', by decide, tok_notMem pat hpat ' ' (by decide)⟩)
        rw [hstt] at hst
        exact strClean_false pat st hst
  · rcases hcoo : f.constraints with _ | co
    · rw [hcoo] at hs
      exact absurd hs (by simp)
    · rw [hcoo] at hs
      rw [show (match some co with
          | some co => if (co == "") = true then ([] : List String)
              else ["Constraints: " ++ co]
          | none => []) =
        if (co == "") = true then ([] : List String) else ["Constraints: " ++ co] from
        rfl] at hs
      by_cases hcoe : co == ""
      · rw [if_pos hcoe] at hs
        exact absurd hs (by simp)
      · rw [if_neg hcoe] at hs
        have hseq : s = "Constraints: " ++ co := by simpa using hs
        subst hseq
        rw [String.data_append]
        refine hasSub_append_junction pat (tok_ne_nil pat hpat) _ _
          (by rcases hpat with h | h <;> (subst h; decide)) ?_
          (Or.inl ⟨' ', by decide, tok_notMem pat hpat ' ' (by decide)⟩)
        rw [hcoo] at hco
        exact strClean_false pat co hco

theorem inputSection_clean (pat : List Char) (hpat : isTok pat) (inp : CreativeInput)
    (hin : inputClean pat inp = true) :
    hasSub pat (inputSection inp).data = false := by
  cases inp with
  | plain c => exact strClean_false pat c hin
  | text c r =>
      simp only [inputClean, Bool.and_eq_true] at hin
      exact strClean_false pat c hin.1
  | deck fn pc r =>
      simp only [inputClean, Bool.and_eq_true] at hin
      obtain ⟨⟨h1, h2⟩, h3⟩ := hin
      rw [show inputSection (.deck fn pc r) =
        "[Parsed from deck: " ++ fn ++ "]\n\n" ++ pc from rfl]
      rw [String.data_append, String.data_append]
      refine hasSub_append_junction pat (tok_ne_nil pat hpat) _ _ ?_
        (strClean_false pat pc h2) ?_
      · refine hasSub_append_junction pat (tok_ne_nil pat hpat) _ _ ?_
          (by rcases hpat with h | h <;> (subst h; decide))
          (Or.inr ⟨']', rfl, tok_notMem pat hpat ']' (by decide)⟩)
        refine hasSub_append_junction pat (tok_ne_nil pat hpat) _ _
          (by rcases hpat with h | h <;> (subst h; decide))
          (strClean_false pat fn h1)
          (Or.inl ⟨' ', by decide, tok_notMem pat hpat ' ' (by decide)⟩)
      · refine Or.inl ⟨'\n', ?_, tok_notMem pat hpat '\n' (by decide)⟩
        rw [List.getLast?_append_of_ne_nil _ (show ("]\n\n").data ≠ [] by decide)]
        decide
  | structured f r =>
      simp only [inputClean, Bool.and_eq_true] at hin
      exact formatStructuredInput_clean pat hpat f hin.1

theorem referencesSection_clean (pat : List Char) (hpat : isTok pat) (inp : CreativeInput)
    (hre : refsClean pat (inputReferences inp) = true) :
    hasSub pat (referencesSection inp).data = false := by
  rw [referencesSection]
  rcases hr : inputReferences inp with _ | rs
  · exact hasSub_empty_str pat hpat
  · rw [hr] at hre
    rw [show (match some rs with
        | some rs => if rs.isEmpty = true then ("" : String)
            else "\n## Visual References\n" ++ joinSep "\n" (numberItems 0 (rs.map refLine))
        | none => "") =
      if rs.isEmpty = true then ("" : String)
      else "\n## Visual References\n" ++ joinSep "\n" (numberItems 0 (rs.map refLine)) from
      rfl]
    by_cases hempty : rs.isEmpty
    · rw [if_pos hempty]
      exact hasSub_empty_str pat hpat
    · rw [if_neg hempty, String.data_append]
      refine hasSub_append_junction pat (tok_ne_nil pat hpat) _ _
        (by rcases hpat with h | h <;> (subst h; decide)) ?_
        (Or.inl ⟨'\n', by decide, tok_notMem pat hpat '\n' (by decide)⟩)
      refine joinSep_clean pat hpat "\n"
        (by rcases hpat with h | h <;> (subst h; decide))
        ⟨'\n', rfl, tok_notMem pat hpat '\n' (by decide)⟩
        ⟨'\n', rfl, tok_notMem pat hpat '\n' (by decide)⟩ _ ?_
      refine numberItems_clean pat hpat (rs.map refLine) 0 ?_
      intro s2 hs2
      obtain ⟨r, hrmem, hreq⟩ := List.mem_map.mp hs2
      subst hreq
      have hrcl := List.all_eq_true.mp hre r hrmem
      rw [Bool.and_eq_true] at hrcl
      refine refLine_clean pat hpat r (strClean_false pat r.description hrcl.1) ?_
      intro u hu
      have := hrcl.2
      rw [hu] at this
      exact strClean_false pat u this

theorem shotCountText_clean (pat : List Char) (hpat : isTok pat) (sc : Option Nat) :
    hasSub pat (shotCountText sc).data = false := by
  rw [shotCountText.eq_def]
  rcases sc with _ | n
  · rcases hpat with h | h <;> (subst h; decide)
  · rw [show (match some n with
        | some n => if (n == 0) = true
            then ("infer from content (typically 4-8 for a :15-:30 spot)" : String)
            else natStr n
        | none => "infer from content (typically 4-8 for a :15-:30 spot)") =
      if (n == 0) = true
      then ("infer from content (typically 4-8 for a :15-:30 spot)" : String)
      else natStr n from rfl]
    by_cases hz : n == 0
    · rw [if_pos hz]
      rcases hpat with h | h <;> (subst h; decide)
    · rw [if_neg hz]
      exact natStr_clean pat hpat n

theorem brandLine_clean (pat : List Char) (hpat : isTok pat) (b : Option String)
    (hb : optStrClean pat b = true) :
    hasSub pat (brandLine b).data = false := by
  rw [brandLine.eq_def]
  rcases b with _ | s
  · exact hasSub_empty_str pat hpat
  · rw [show (match some s with
        | some b => if (b == "") = true then ("" : String) else "- Brand context: " ++ b
        | none => "") =
      if (s == "") = true then ("" : String) else "- Brand context: " ++ s from rfl]
    by_cases hbe : s == ""
    · rw [if_pos hbe]
      exact hasSub_empty_str pat hpat
    · rw [if_neg hbe, String.data_append]
      refine hasSub_append_junction pat (tok_ne_nil pat hpat) _ _
        (by rcases hpat with h | h <;> (subst h; decide))
        (strClean_false pat s hb)
        (Or.inl ⟨' ', by decide, tok_notMem pat hpat ' ' (by decide)⟩)

set_option maxRecDepth 8192 in
/-- C8: the prompt assembler is a total function of the embedded input and
option variants, and no placeholder token (`null` or `undefined`) appears in
the assembled prompt when no user-supplied string contains it; unset optional
fields contribute nothing: absent references render an empty references
section, an absent brand context renders an empty brand line, and an absent
shot count renders the infer-from-content instruction. -/
theorem C8_prompt_totality (inp : CreativeInput) (opts : BuildOptions)
    (pat : List Char) (hpat : isTok pat)
    (hin : inputClean pat inp = true) (hop : optsClean pat opts = true) :
    hasSub pat (buildUserPrompt inp opts).data = false ∧
    (inputReferences inp = none → referencesSection inp = "") ∧
    (opts.brandContext = none → brandLine opts.brandContext = "") ∧
    (opts.shotCount = none → shotCountText opts.shotCount =
      "infer from content (typically 4-8 for a :15-:30 spot)") := by
  have hre : refsClean pat (inputReferences inp) = true := by
    cases inp with
    | plain c => rfl
    | text c r =>
        simp only [inputClean, Bool.and_eq_true] at hin
        exact hin.2
    | deck fn pc r =>
        simp only [inputClean, Bool.and_eq_true] at hin
        exact hin.2
    | structured f r =>
        simp only [inputClean, Bool.and_eq_true] at hin
        exact hin.2
  simp only [optsClean, Bool.and_eq_true] at hop
  refine ⟨?_, ?_, ?_, ?_⟩
  · rw [buildUserPrompt]
    simp only [String.data_append]
    refine hasSub_append_junction pat (tok_ne_nil pat hpat) _ _ ?_
      (by rcases hpat with h | h <;> (subst h; decide))
      (Or.inr ⟨'\n', rfl, tok_notMem pat hpat '\n' (by decide)⟩)
    refine hasSub_append_junction pat (tok_ne_nil pat hpat) _ _ ?_
      (brandLine_clean pat hpat opts.brandContext hop.2) ?_
    · refine hasSub_append_junction pat (tok_ne_nil pat hpat) _ _ ?_
        (by rcases hpat with h | h <;> (subst h; decide))
        (Or.inr ⟨'\n', rfl, tok_notMem pat hpat '\n' (by decide)⟩)
      refine hasSub_append_junction pat (tok_ne_nil pat hpat) _ _ ?_
        (shotCountText_clean pat hpat opts.shotCount) ?_
      · refine hasSub_append_junction pat (tok_ne_nil pat hpat) _ _ ?_
          (by rcases hpat with h | h <;> (subst h; decide))
          (Or.inr ⟨'\n', rfl, tok_notMem pat hpat '\n' (by decide)⟩)
        refine hasSub_append_junction pat (tok_ne_nil pat hpat) _ _ ?_
          (strClean_false pat opts.platform hop.1) ?_
        · refine hasSub_append_junction pat (tok_ne_nil pat hpat) _ _ ?_
            (by rcases hpat with h | h <;> (subst h; decide))
            (Or.inr ⟨'\n', rfl, tok_notMem pat hpat '\n' (by decide)⟩)
          refine hasSub_append_junction pat (tok_ne_nil pat hpat) _ _ ?_
            (referencesSection_clean pat hpat inp hre) ?_
          · refine hasSub_append_junction pat (tok_ne_nil pat hpat) _ _ ?_
              (by rcases hpat with h | h <;> (subst h; decide))
              (Or.inr ⟨'\n', rfl, tok_notMem pat hpat '\n' (by decide)⟩)
            refine hasSub_append_junction pat (tok_ne_nil pat hpat) _ _
              (by rcases hpat with h | h <;> (subst h; decide))
              (inputSection_clean pat hpat inp hin)
              (Or.inl ⟨'\n', by decide, tok_notMem pat hpat '\n' (by decide)⟩)
          · refine Or.inl ⟨'\n', ?_, tok_notMem pat hpat '\n' (by decide)⟩
            rw [List.getLast?_append_of_ne_nil _ (show ("\n").data ≠ [] by decide)]
            decide
        · refine Or.inl ⟨' ', ?_, tok_notMem pat hpat ' ' (by decide)⟩
          rw [List.getLast?_append_of_ne_nil _
            (show ("\n\n## Requirements\n\n- Target platform: ").data ≠ [] by decide)]
          decide
      · refine Or.inl ⟨' ', ?_, tok_notMem pat hpat ' ' (by decide)⟩
        rw [List.getLast?_append_of_ne_nil _
          (show ("\n- Number of shots: ").data ≠ [] by decide)]
        decide
    · refine Or.inl ⟨'\n', ?_, tok_notMem pat hpat '\n' (by decide)⟩
      rw [List.getLast?_append_of_ne_nil _ (show
        ("\n- Output format: Complete JSON matching the prompt_architecture_schema\n").data ≠
          [] by decide)]
      decide
  · intro h
    rw [referencesSection, h]
  · intro h
    rw [h]
    rfl
  · intro h
    rw [h]
    rfl

/-- Witness for C8 at a fully-populated structured input, for both placeholder
tokens. -/
theorem C8_prompt_totality_witness :
    isTok ("null".data) ∧ inputClean ("null".data) c8In = true ∧
    optsClean ("null".data) c8Opts = true ∧
    hasSub ("null".data) (buildUserPrompt c8In c8Opts).data = false ∧
    hasSub ("undefined".data) (buildUserPrompt c8In c8Opts).data = false :=
  ⟨Or.inl rfl, by decide, by decide,
   (C8_prompt_totality c8In c8Opts ("null".data) (Or.inl rfl) (by decide) (by decide)).1,
   (C8_prompt_totality c8In c8Opts ("undefined".data) (Or.inr rfl) (by decide)
     (by decide)).1⟩

/-- Witness for C2 at the specification's example: confidence 0.4 with
questions {Q1: high, no default; Q2: low, default applied} yields
`needs_clarification` with exactly one reduced question, Q1. -/
theorem C2_question_selection_witness :
    confidenceGate (.obj c2Fs) =
      .ok (.needsClarification (.obj c2Fs)
        [⟨some (.str ("Q1")), some (.str ("W1")), some (.bool false)⟩]) :=
  C2_question_selection c2Fs [("confidence_score", .num 4 1)] 4 1 [c2Q1, c2Q2]
    rfl rfl (by decide) rfl (by decide) rfl

/-- C3 (amended): when validation fails on an object architecture, a missing
required field makes the `SchemaError` name every missing field among
{metadata, project, global_style, shots} (the shot checks are not reached);
otherwise the `SchemaError` identifies the position of the first shot — not
every shot — whose `prompt.full_prompt` is absent or empty. -/
theorem C3_schema_errors (fs : List (String × Json)) :
    (missingOf fs ≠ [] →
      validateArchitecture (.obj fs) =
        .error (.schemaError
          ("Architecture missing required fields: " ++
            String.intercalate ", " (missingOf fs)))) ∧
    (∀ ss j, missingOf fs = [] → objGet fs "shots" = some (.arr ss) →
      (∀ s ∈ ss, isNull s = false) → firstBad ss = some j →
      validateArchitecture (.obj fs) =
        .error (.schemaError ("Shot " ++ toString (j + 1) ++ " missing full_prompt"))) :=
  ⟨fun hm => validate_missing fs hm,
   fun ss j hm hs hnn hj => validate_shot_error fs ss j hm hs hnn hj⟩

/-- C3 (counterexample): with two shots both missing `full_prompt`, the raised
`SchemaError` names only shot 1 — its message does not even contain the
character `2` — refuting that the error identifies the position of every
failing shot. -/
theorem C3_counterexample :
    goodShot (Json.obj []) = false ∧
    validateArchitecture c3In = .error (.schemaError ("Shot 1 missing full_prompt")) ∧
    ("Shot 1 missing full_prompt").data.contains '2' = false :=
  ⟨rfl, rfl, rfl⟩

/-- Witness for C3 (amended) at concrete inputs: every missing required field
is enumerated, and the first bad shot is identified. -/
theorem C3_schema_errors_witness :
    validateArchitecture c3MissIn =
      .error (.schemaError
        ("Architecture missing required fields: project, global_style, shots")) ∧
    validateArchitecture c3In = .error (.schemaError ("Shot 1 missing full_prompt")) :=
  ⟨(C3_schema_errors [("metadata", .obj [("confidence_score", .num 9 1)])]).1 (by decide),
   (C3_schema_errors [("metadata", .obj [("confidence_score", .num 9 1)]),
      ("project", .str ("p")), ("global_style", .str ("g")),
      ("shots", .arr [.obj [], .obj []])]).2 [.obj [], .obj []] 0 (by decide) rfl
      (by decide) rfl⟩

/-- C4 (amended): on every object architecture passing the required-field and
per-shot checks whose `metadata` is itself a mapping, the validator succeeds;
`confidence_score` is kept when numeric and set to 0.8 otherwise; each of
`interpretations`, `missing_info`, `characters`, `environments` is replaced by
the empty sequence when absent OR falsy and kept otherwise; every other field
is unchanged; and defaulting never masks a required-field violation. -/
theorem C4_defaulting (fs mfs : List (String × Json)) (ss : List Json)
    (hm : missingOf fs = [])
    (hmd : objGet fs "metadata" = some (.obj mfs))
    (hs : objGet fs "shots" = some (.arr ss))
    (hg : ∀ s ∈ ss, goodShot s = true) :
    validateArchitecture (.obj fs) = .ok (valOut fs mfs) ∧
    propOf (valOut fs mfs) "metadata" = some (.obj (mfsOut mfs)) ∧
    objGet (mfsOut mfs) "confidence_score" =
      (match objGet mfs "confidence_score" with
       | some (.num m e) => some (.num m e)
       | _ => some (.num 8 1)) ∧
    (∀ k, k ≠ "confidence_score" → objGet (mfsOut mfs) k = objGet mfs k) ∧
    propOf (valOut fs mfs) "interpretations" =
      some (jsOr (objGet fs "interpretations") (.arr [])) ∧
    propOf (valOut fs mfs) "missing_info" =
      some (jsOr (objGet fs "missing_info") (.arr [])) ∧
    propOf (valOut fs mfs) "characters" =
      some (jsOr (objGet fs "characters") (.arr [])) ∧
    propOf (valOut fs mfs) "environments" =
      some (jsOr (objGet fs "environments") (.arr [])) ∧
    (∀ k, k ≠ "metadata" → k ≠ "interpretations" → k ≠ "missing_info" →
      k ≠ "characters" → k ≠ "environments" → propOf (valOut fs mfs) k = objGet fs k) ∧
    (∀ gs b, missingOf gs ≠ [] → validateArchitecture (.obj gs) ≠ .ok b) :=
  ⟨by rw [validate_run fs ss hm hs hg]; exact applyDefaults_obj fs mfs hmd,
   tailOut_metadata fs (.obj (mfsOut mfs)),
   mfsOut_cs mfs,
   fun k hk => mfsOut_ne mfs k hk,
   tailOut_interpretations fs (.obj (mfsOut mfs)),
   tailOut_missing_info fs (.obj (mfsOut mfs)),
   tailOut_characters fs (.obj (mfsOut mfs)),
   tailOut_environments fs (.obj (mfsOut mfs)),
   fun k h1 h2 h3 h4 h5 => tailOut_other fs (.obj (mfsOut mfs)) k h1 h2 h3 h4 h5,
   fun gs b hgs hok => by rw [validate_missing gs hgs] at hok; exact Except.noConfusion hok⟩

/-- C4 (counterexample): a present-but-`null` `interpretations` field is
replaced by the empty sequence although it is not absent (the defaults are not
limited to absent fields); and an input mapping passing the required-field and
per-shot checks whose `metadata` is a truthy primitive makes the validator
throw (strict-mode `TypeError` on the `confidence_score` assignment) rather
than succeed. -/
theorem C4_counterexample :
    objGet c4NullFs "interpretations" = some Json.null ∧
    validateArchitecture (.obj c4NullFs) = .ok (.obj c4NullOutFs) ∧
    objGet c4NullOutFs "interpretations" = some (.arr []) ∧
    missingOf c4MetaStrFs = [] ∧
    validateArchitecture (.obj c4MetaStrFs) = .error .typeError :=
  ⟨rfl, rfl, rfl, rfl, rfl⟩

/-- Witness for C4 (amended) at a concrete input: the validator succeeds and
the absent collections and non-numeric confidence are defaulted. -/
theorem C4_defaulting_witness :
    validateArchitecture (.obj [("metadata", .obj []), ("project", .str ("p")),
        ("global_style", .str ("g")),
        ("shots", .arr [.obj [("prompt", .obj [("full_prompt", .str ("x"))])]])]) =
      .ok (valOut [("metadata", .obj []), ("project", .str ("p")),
        ("global_style", .str ("g")),
        ("shots", .arr [.obj [("prompt", .obj [("full_prompt", .str ("x"))])]])] []) ∧
    objGet (mfsOut []) "confidence_score" = some (.num 8 1) :=
  ⟨(C4_defaulting [("metadata", .obj []), ("project", .str ("p")),
      ("global_style", .str ("g")),
      ("shots", .arr [.obj [("prompt", .obj [("full_prompt", .str ("x"))])]])] []
      [.obj [("prompt", .obj [("full_prompt", .str ("x"))])]]
      (by decide) rfl rfl (by decide)).1,
   (C4_defaulting [("metadata", .obj []), ("project", .str ("p")),
      ("global_style", .str ("g")),
      ("shots", .arr [.obj [("prompt", .obj [("full_prompt", .str ("x"))])]])] []
      [.obj [("prompt", .obj [("full_prompt", .str ("x"))])]]
      (by decide) rfl rfl (by decide)).2.2.1⟩

/-- C7 (amended): every architecture accepted by the validator has truthy
`metadata`, `project` and `global_style` fields and a `shots` array all of
whose members carry a truthy `prompt.full_prompt`; the contiguous
shot-number invariant is NOT established by validation. -/
theorem C7_validator_soundness (arch a : Json) (h : validateArchitecture arch = .ok a) :
    truthyO (propOf a "metadata") = true ∧
    truthyO (propOf a "project") = true ∧
    truthyO (propOf a "global_style") = true ∧
    (match propOf a "shots" with
     | some (.arr ss) => ∀ s ∈ ss, goodShot s = true
     | _ => False) := by
  obtain ⟨fs, ss, md1, harch, hm, hs, hg, ha, ht⟩ := validate_ok_dissect arch a h
  subst ha
  refine ⟨?_, ?_, ?_, ?_⟩
  · rw [tailOut_metadata]
    simpa [truthyO] using ht
  · rw [tailOut_other fs md1 "project" (by decide) (by decide) (by decide) (by decide)
      (by decide)]
    exact missingOf_nil_truthy fs hm "project" (by simp [requiredFields])
  · rw [tailOut_other fs md1 "global_style" (by decide) (by decide) (by decide) (by decide)
      (by decide)]
    exact missingOf_nil_truthy fs hm "global_style" (by simp [requiredFields])
  · rw [tailOut_other fs md1 "shots" (by decide) (by decide) (by decide) (by decide)
      (by decide), hs]
    exact hg

/-- C7 (counterexample): the validator accepts an architecture whose only
shot carries `shot_number` 7, violating the contiguous-from-1 invariant the
claim asserts of every accepted architecture. -/
theorem C7_counterexample :
    validateArchitecture c7In = .ok c7Out ∧ shotNumbersOk c7Out = false :=
  ⟨rfl, by decide⟩

/-- Witness for C7 (amended) at a concrete accepted architecture. -/
theorem C7_validator_soundness_witness :
    truthyO (propOf c7Out "metadata") = true ∧
    truthyO (propOf c7Out "project") = true ∧
    truthyO (propOf c7Out "global_style") = true :=
  ⟨(C7_validator_soundness c7In c7Out (by rfl)).1,
   (C7_validator_soundness c7In c7Out (by rfl)).2.1,
   (C7_validator_soundness c7In c7Out (by rfl)).2.2.1⟩

/-- Witness for C9 at a concrete refinement call. -/
theorem C9_refinement_stamp_witness :
    metaGet cAR "updated_at" = some (.str ("T1")) ∧
    metaGet cAR "refinement_note" = some (.str ("feedback")) :=
  ⟨(C9_refinement_stamp cRaw "feedback" "T1" cAR (by rfl)).1,
   (C9_refinement_stamp cRaw "feedback" "T1" cAR (by rfl)).2.1⟩

/-- Witness for C10 at a concrete generation call. -/
theorem C10_generation_stamp_witness :
    metaGet cAG "schema_version" = some (.str ("1.0.0")) ∧
    metaGet cAG "created_at" = some (.str ("T0")) ∧
    metaGet cAG "platform_target" = some (.str ("platform-agnostic")) ∧
    metaGet cAG "confidence_score" = some (.num 9 1) :=
  ⟨(C10_generation_stamp cRaw none "T0" cAG cA0 [("confidence_score", Json.num 9 1)] (by rfl) (by rfl) (by rfl)).1,
   (C10_generation_stamp cRaw none "T0" cAG cA0 [("confidence_score", Json.num 9 1)] (by rfl) (by rfl) (by rfl)).2.1,
   (C10_generation_stamp cRaw none "T0" cAG cA0 [("confidence_score", Json.num 9 1)] (by rfl) (by rfl) (by rfl)).2.2.1,
   (C10_generation_stamp cRaw none "T0" cAG cA0 [("confidence_score", Json.num 9 1)] (by rfl) (by rfl) (by rfl)).2.2.2
     "confidence_score" (by decide) (by decide) (by decide)⟩

end AIArtistry
